import Mathlib

/-
  A shallow embedding of the fsck-style filesystem checker in src/Project4.c.

  The C program memory-maps a filesystem image and validates it.  We model the
  mapped image abstractly: the superblock fields are plain naturals, the inode
  table is a total function from inode numbers to inode records, the allocation
  bitmap is a total function from block addresses to booleans (the bit that the
  CHK_BIT macro would read), and the raw contents of a data block are exposed
  through two total view functions, one reading the block as an array of
  NINDIRECT unsigned ints (as check_indirect and friends do via memcpy or a
  uint cast) and one reading it as an array of DPB directory entries (as
  process_entries does via a struct dirent cast).  Reads beyond the regions
  that a well-formed image would use are modelled by the same total functions,
  mirroring the fact that the C code can read any mapped byte.

  Machine integers are modelled as Nat (uint, ushort) and Int (the short
  fields of a dinode); the one place where unsigned wrap-around matters, the
  index computation in blk_usage_chk, performs the subtraction modulo 2^32
  explicitly.  Fallible scratch-array accesses are modelled with Option: a
  result of none means the C program indexed a stack array out of bounds.
-/

/-- Modelled from the spec: the fixed on-disk layout constants come from the
fs.h / types.h / param.h headers, which are not part of src/.  The format has a
fixed block size of 512 bytes; an inode holds NDIRECT direct addresses plus one
indirect address; an indirect block holds NINDIRECT = 512/4 addresses; a block
holds DPB = 512/16 directory entries and IPB = 512/64 inodes; a bitmap block
holds BPB = 512*8 bits. -/
def NDIRECT : Nat := 12

/-- Modelled from the spec: number of addresses in an indirect block. -/
def NINDIRECT : Nat := 128

/-- Modelled from the spec: directory entries per block. -/
def DPB : Nat := 32

/-- Modelled from the spec: inodes per block. -/
def IPB : Nat := 8

/-- Modelled from the spec: bitmap bits per block. -/
def BPB : Nat := 4096

/-- Modelled from the spec: inode type tag for directories (T_DIR). -/
def T_DIR : Int := 1

/-- Modelled from the spec: inode type tag for regular files (T_FILE). -/
def T_FILE : Int := 2

/-- Modelled from the spec: inode type tag for devices (T_DEV). -/
def T_DEV : Int := 3

/-- 2^32, the modulus of C unsigned int arithmetic. -/
def U32 : Nat := 4294967296

/-- The error taxonomy: one constructor per distinct fatal diagnostic that the
checker can print before calling exit(1). -/
inductive Err where
  | BadInodeType
  | BadDirectAddress
  | BadIndirectAddress
  | MissingRoot
  | MalformedDirectory
  | AddressNotInBitmap
  | DuplicateBlockUse
  | InodeNotInAnyDirectory
  | DanglingDirectoryReference
  | BadLinkCount
  | DirectoryHardLinked
  deriving DecidableEq, Repr

instance : DecidableEq (Except Err Unit) := fun a b =>
  match a, b with
  | .ok (), .ok () => isTrue rfl
  | .error e, .error e' =>
    match decEq e e' with
    | isTrue h => isTrue (by rw [h])
    | isFalse h => isFalse (by intro hc; cases hc; exact h rfl)
  | .ok _, .error _ => isFalse (by intro h; cases h)
  | .error _, .ok _ => isFalse (by intro h; cases h)

/-- A directory entry (struct dirent): a 16-bit inode number and a name.
The fixed-width name field is abstracted as a string, matching the strcmp
comparisons the C code performs on it. -/
structure Dirent where
  inum : Nat
  name : String
  deriving DecidableEq, Repr

/-- An on-disk inode (struct dinode): the type tag and link count are C
shorts, hence Int; addrs is the array of NDIRECT direct addresses followed by
the indirect address in slot NDIRECT.  Slots are read with getD, defaulting to
0 like zero-initialized array slots. -/
structure Dinode where
  type : Int
  nlink : Int
  addrs : List Nat
  deriving DecidableEq, Repr

/-- The mapped filesystem image together with its parsed superblock fields
(img_t plus struct superblock).  inodeAt i is the dinode record at index i of
the inode table; bitmap a is the bitmap bit of block address a; blockUints b j
is the j-th unsigned int stored in block b; blockDirents b j is the j-th
directory entry stored in block b. -/
structure Img where
  size : Nat
  nblocks : Nat
  ninodes : Nat
  inodeAt : Nat → Dinode
  bitmap : Nat → Bool
  blockUints : Nat → Nat → Nat
  blockDirents : Nat → Nat → Dirent

/-- init_img: number of inode-table blocks, img->ninodeblks = ninodes / IPB + 1. -/
def ninodeblks (ninodes : Nat) : Nat := ninodes / IPB + 1

/-- init_img: number of bitmap blocks, img->nbitmapblks = size / BPB + 1. -/
def nbitmapblks (size : Nat) : Nat := size / BPB + 1

/-- init_img: img->firstblk = ninodeblks + nbitmapblks + 2, the first data
block address (block 0 is reserved, block 1 is the superblock). -/
def firstblkOf (ninodes size : Nat) : Nat := ninodeblks ninodes + nbitmapblks size + 2

/-- The firstblk field of an image, as init_img computes it. -/
def Img.firstblk (img : Img) : Nat := firstblkOf img.ninodes img.size

/-- Fold over a list in the Except monad with explicit state, stopping at the
first error.  Used to model C loops that call exit(1) on failure. -/
def foldX (f : σ → α → Except Err σ) : σ → List α → Except Err σ
  | s, [] => .ok s
  | s, a :: l =>
    match f s a with
    | .error e => .error e
    | .ok s' => foldX f s' l

/-- Stateless variant of foldX for loops that only check, never accumulate. -/
def allE (f : α → Except Err Unit) : List α → Except Err Unit
  | [] => .ok ()
  | a :: l =>
    match f a with
    | .error e => .error e
    | .ok () => allE f l

/-- Fold in the Option monad: none models a C execution that went out of
bounds or ran out of fuel. -/
def foldOpt (f : σ → α → Option σ) : σ → List α → Option σ
  | s, [] => some s
  | s, a :: l =>
    match f s a with
    | none => none
    | some s' => foldOpt f s' l

/-- Fold combining Option (out-of-bounds access) with Except (checker error). -/
def foldOX (f : σ → α → Option (Except Err σ)) : σ → List α → Option (Except Err σ)
  | s, [] => some (.ok s)
  | s, a :: l =>
    match f s a with
    | none => none
    | some (.error e) => some (.error e)
    | some (.ok s') => foldOX f s' l

/-- Pointwise update of a boolean scratch table (chkd[addr] = true). -/
def setB (f : Nat → Bool) (a : Nat) : Nat → Bool :=
  fun x => if x = a then true else f x

/-- Increment one entry of a scratch counter table (inodemap[i]++). -/
def inc (m : Nat → Nat) (j : Nat) : Nat → Nat :=
  fun x => if x = j then m j + 1 else m x

/-- valid_addr: an address is valid iff it is positive and below the
superblock size. -/
def valid_addr (img : Img) (addr : Nat) : Bool :=
  decide (0 < addr) && decide (addr < img.size)

/-- validate_type: the inode type must be T_FILE, T_DIR or T_DEV. -/
def validate_type (ino : Dinode) : Except Err Unit :=
  if ino.type = T_FILE ∨ ino.type = T_DIR ∨ ino.type = T_DEV then .ok ()
  else .error .BadInodeType

/-- check_direct: every nonzero direct address slot must pass valid_addr. -/
def check_direct (img : Img) (ino : Dinode) : Except Err Unit :=
  allE (fun i =>
    let addr := ino.addrs.getD i 0
    if addr = 0 then .ok ()
    else if valid_addr img addr then .ok ()
    else .error .BadDirectAddress) (List.range NDIRECT)

/-- check_indirect: if the indirect slot is nonzero it must pass valid_addr,
and so must every nonzero address stored in the indirect block. -/
def check_indirect (img : Img) (ino : Dinode) : Except Err Unit :=
  let ind := ino.addrs.getD NDIRECT 0
  if ind = 0 then .ok ()
  else if !(valid_addr img ind) then .error .BadIndirectAddress
  else allE (fun j =>
    let addr := img.blockUints ind j
    if addr = 0 then .ok ()
    else if valid_addr img addr then .ok ()
    else .error .BadIndirectAddress) (List.range NINDIRECT)

/-- The DPB directory entries stored in block addr, in slot order. -/
def entriesOf (img : Img) (addr : Nat) : List Dirent :=
  (List.range DPB).map (img.blockDirents addr)

/-- Core loop of process_entries over a list of directory entries, threading
the dot / dotdot flags.  An entry named "." must point at the inode itself
(else the "directory not properly formatted" error); an entry named ".." must
point at the inode itself exactly when the inode is the root, inode 1 (else
the "root directory does not exist" error). -/
def procEntries (inum : Nat) : (Bool × Bool) → List Dirent → Except Err (Bool × Bool)
  | s, [] => .ok s
  | s, de :: l =>
    if de.name = "." then
      if de.inum ≠ inum then .error .MalformedDirectory
      else procEntries inum (true, s.2) l
    else if de.name = ".." then
      if (inum ≠ 1 ∧ de.inum = inum) ∨ (inum = 1 ∧ de.inum ≠ inum) then .error .MissingRoot
      else procEntries inum (s.1, true) l
    else procEntries inum s l

/-- process_entries: scan the DPB entries of one directory data block. -/
def process_entries (img : Img) (addr : Nat) (inum : Nat) (s : Bool × Bool) :
    Except Err (Bool × Bool) :=
  procEntries inum s (entriesOf img addr)

/-- The NDIRECT direct address slots of an inode, in slot order. -/
def slotAddrs (ino : Dinode) : List Nat :=
  (List.range NDIRECT).map (fun i => ino.addrs.getD i 0)

/-- Loop of validate_dir over the direct address slots.  State is
(dot, ddot, broke): zero addresses are skipped, and once process_entries
reports that both flags are set the loop breaks (remaining blocks are not
examined). -/
def dirLoop (img : Img) (inum : Nat) :
    (Bool × Bool × Bool) → List Nat → Except Err (Bool × Bool × Bool)
  | s, [] => .ok s
  | s, addr :: l =>
    if s.2.2 then dirLoop img inum s l
    else if addr = 0 then dirLoop img inum s l
    else
      match process_entries img addr inum (s.1, s.2.1) with
      | .error e => .error e
      | .ok (d, dd) => dirLoop img inum (d, dd, d && dd) l

/-- validate_dir: a directory inode must yield both a valid "." and a valid
".." entry while scanning its direct blocks; otherwise the
"directory not properly formatted" error. -/
def validate_dir (img : Img) (ino : Dinode) (inum : Nat) : Except Err Unit :=
  match dirLoop img inum (false, false, false) (slotAddrs ino) with
  | .error e => .error e
  | .ok s => if s.1 && s.2.1 then .ok () else .error .MalformedDirectory

/-- marked_in_bmp: the bitmap bit of the address (the CHK_BIT macro). -/
def marked_in_bmp (img : Img) (addr : Nat) : Bool :=
  img.bitmap addr

/-- chk_indirect: walk the NINDIRECT addresses of an indirect block, skipping
zero or already checked ones, and require the bitmap bit of each new one
(error "address used by inode but marked free in bitmap" otherwise). -/
def chk_indirect (img : Img) (contents : Nat → Nat) (chkd : Nat → Bool) :
    Except Err (Nat → Bool) :=
  foldX (fun chkd j =>
    let addr := contents j
    if addr = 0 ∨ chkd addr then .ok chkd
    else if !(marked_in_bmp img addr) then .error .AddressNotInBitmap
    else .ok (setB chkd addr)) chkd (List.range NINDIRECT)

/-- chk_bmp_addr: for one inode, every address it uses (the NDIRECT direct
slots, the indirect pointer in slot NDIRECT, and, when the indirect pointer is
freshly checked, the addresses in the indirect block) must be marked in the
bitmap.  The chkd table deduplicates addresses within this inode. -/
def chk_bmp_addr (img : Img) (ino : Dinode) : Except Err Unit :=
  match foldX (fun chkd i =>
      let addr := ino.addrs.getD i 0
      if addr = 0 ∨ chkd addr then .ok chkd
      else if !(marked_in_bmp img addr) then .error .AddressNotInBitmap
      else
        let chkd' := setB chkd addr
        if i = NDIRECT then chk_indirect img (img.blockUints addr) chkd'
        else .ok chkd') (fun _ => false) (List.range (NDIRECT + 1)) with
  | .error e => .error e
  | .ok _ => .ok ()

/-- chk_mark_bmp: the bitmap bit of addr must be set (else the error message
"bitmap marks block in use but it is not in use", which the forward check of
bmp_chk prints for a used-but-unmarked address); the chklist entry for addr is
then recorded. -/
def chk_mark_bmp (img : Img) (addr : Nat) (cl : Nat → Bool) : Except Err (Nat → Bool) :=
  if !(marked_in_bmp img addr) then .error .AddressNotInBitmap
  else .ok (setB cl addr)

/-- Forward phase of bmp_chk: every nonzero direct address of every non-free
inode, and every nonzero address inside a nonzero indirect block, must be
marked in the bitmap; chklist records the addresses seen. -/
def bmpForward (img : Img) : Except Err (Nat → Bool) :=
  foldX (fun cl i =>
    let ino := img.inodeAt i
    if ino.type = 0 then .ok cl
    else
      match foldX (fun cl j =>
          let addr := ino.addrs.getD j 0
          if addr ≠ 0 then chk_mark_bmp img addr cl else .ok cl) cl (List.range NDIRECT) with
      | .error e => .error e
      | .ok cl1 =>
        let ind := ino.addrs.getD NDIRECT 0
        if ind = 0 then .ok cl1
        else foldX (fun cl j =>
          let addr := img.blockUints ind j
          if addr ≠ 0 then chk_mark_bmp img addr cl else .ok cl) cl1 (List.range NINDIRECT))
    (fun _ => false) (List.range img.ninodes)

/-- Backward phase of bmp_chk: the loop over all block addresses whose body is
empty in the C source (the bit-set-but-unused condition is computed and
discarded). -/
def bmpBackward (img : Img) (cl : Nat → Bool) : Unit :=
  (List.range img.size).foldl (fun u i =>
    if img.bitmap i = true ∧ cl i = false then u else u) ()

/-- bmp_chk: forward check, then the no-op backward loop. -/
def bmp_chk (img : Img) : Except Err Unit :=
  match bmpForward img with
  | .error e => .error e
  | .ok cl =>
    let _ := bmpBackward img cl
    .ok ()

/-- blk_usage_chk: skip a zero address, otherwise index the usage-count array
at addr - startblk computed in unsigned 32-bit arithmetic (no lower bound
check), increment, and fail with "address used more than once" when the count
exceeds one.  An index outside the array is an out-of-bounds access: none. -/
def blk_usage_chk (counts : List Nat) (startblk addr : Nat) : Option (Except Err (List Nat)) :=
  if addr = 0 then some (.ok counts)
  else
    let idx := (addr + (U32 - startblk % U32)) % U32
    match counts.get? idx with
    | none => none
    | some c =>
      if c + 1 > 1 then some (.error .DuplicateBlockUse)
      else some (.ok (counts.set idx (c + 1)))

/-- Per-inode part of addrs_chk: run blk_usage_chk on the NDIRECT direct
slots, then, when the indirect pointer is nonzero, on the NINDIRECT addresses
stored in the indirect block.  The indirect pointer itself is never passed to
blk_usage_chk. -/
def inode_usage (img : Img) (counts : List Nat) (ino : Dinode) : Option (Except Err (List Nat)) :=
  match foldOX (fun c j => blk_usage_chk c img.firstblk (ino.addrs.getD j 0))
      counts (List.range NDIRECT) with
  | none => none
  | some (.error e) => some (.error e)
  | some (.ok c1) =>
    let ind := ino.addrs.getD NDIRECT 0
    if ind = 0 then some (.ok c1)
    else foldOX (fun c j => blk_usage_chk c img.firstblk (img.blockUints ind j))
      c1 (List.range NINDIRECT)

/-- addrs_chk: the duplicate-use check over the whole inode table, with a
fresh usage-count array of nblocks entries. -/
def addrs_chk (img : Img) : Option (Except Err Unit) :=
  match foldOX (fun counts i =>
      let ino := img.inodeAt i
      if ino.type = 0 then some (.ok counts)
      else inode_usage img counts ino)
    (List.replicate img.nblocks 0) (List.range img.ninodes) with
  | none => none
  | some (.error e) => some (.error e)
  | some (.ok _) => some (.ok ())

/-- traverse_dirs: recursive descent from a directory inode.  Every directory
data block (direct blocks, then the blocks listed in the indirect block) is
scanned; each entry that is nonempty and named neither "." nor ".." bumps the
reference count of its target inode and recurses into it.  The C recursion
carries no visited state and no depth bound; the extra fuel argument makes the
function total, with none meaning that the modelled recursion exceeded the
given depth. -/
def traverse_dirs (img : Img) : Nat → Nat → (Nat → Nat) → Option (Nat → Nat)
  | 0, _, _ => none
  | fuel + 1, ino, m =>
    if (img.inodeAt ino).type = T_DIR then
      match foldOpt (fun m i =>
          let addr := (img.inodeAt ino).addrs.getD i 0
          if addr = 0 then some m
          else foldOpt (fun m k =>
              let de := img.blockDirents addr k
              if de.inum = 0 ∨ de.name = "." ∨ de.name = ".." then some m
              else traverse_dirs img fuel de.inum (inc m de.inum))
            m (List.range DPB))
        m (List.range NDIRECT) with
      | none => none
      | some m1 =>
        let ind := (img.inodeAt ino).addrs.getD NDIRECT 0
        if ind = 0 then some m1
        else foldOpt (fun m i =>
            let addr := img.blockUints ind i
            if addr = 0 then some m
            else foldOpt (fun m k =>
                let de := img.blockDirents addr k
                if de.inum = 0 ∨ de.name = "." ∨ de.name = ".." then some m
                else traverse_dirs img fuel de.inum (inc m de.inum))
              m (List.range DPB))
          m1 (List.range NINDIRECT)
    else some m

/-- chk_in_use: a non-free inode must appear in some directory. -/
def chk_in_use (ino : Dinode) (c : Nat) : Except Err Unit :=
  if ino.type ≠ 0 ∧ c = 0 then .error .InodeNotInAnyDirectory else .ok ()

/-- chk_in_free: an inode referred to by a directory must not be free. -/
def chk_in_free (ino : Dinode) (c : Nat) : Except Err Unit :=
  if 0 < c ∧ ino.type = 0 then .error .DanglingDirectoryReference else .ok ()

/-- chk_ref_cnt: a file inode must have nlink equal to its reference count. -/
def chk_ref_cnt (ino : Dinode) (c : Nat) : Except Err Unit :=
  if ino.type = T_FILE ∧ ino.nlink ≠ (c : Int) then .error .BadLinkCount else .ok ()

/-- chk_dir_once: a directory inode must be referenced at most once. -/
def chk_dir_once (ino : Dinode) (c : Nat) : Except Err Unit :=
  if ino.type = T_DIR ∧ 1 < c then .error .DirectoryHardLinked else .ok ()

/-- The four reconciliation checks that dir_chk runs for one inode, in source
order, stopping at the first error. -/
def chkInode (ino : Dinode) (c : Nat) : Except Err Unit :=
  match chk_in_use ino c with
  | .error e => .error e
  | .ok _ =>
    match chk_in_free ino c with
    | .error e => .error e
    | .ok _ =>
      match chk_ref_cnt ino c with
      | .error e => .error e
      | .ok _ => chk_dir_once ino c

/-- The initial reference-count table of dir_chk: all zero, then
inmap[0]++ and inmap[1]++. -/
def dirChkSeed : Nat → Nat := inc (inc (fun _ => 0) 0) 1

/-- dir_chk: seed the table, traverse the tree from the root inode (index 1),
then run the four reconciliation checks for every inode number from 2 to
ninodes - 1. -/
def dir_chk (img : Img) (fuel : Nat) : Option (Except Err Unit) :=
  match traverse_dirs img fuel 1 dirChkSeed with
  | none => none
  | some m =>
    some (allE (fun n => chkInode (img.inodeAt n) (m n)) (List.range' 2 (img.ninodes - 2)))

/-- The per-inode body of the main sweep: skip free inodes, validate the type,
the direct and indirect addresses, directory well-formedness (with the root
special case at index 1), and the per-inode bitmap membership check. -/
def inode_chk (img : Img) (i : Nat) : Except Err Unit :=
  let ino := img.inodeAt i
  if ino.type = 0 then .ok ()
  else
    match validate_type ino with
    | .error e => .error e
    | .ok _ =>
      match check_direct img ino with
      | .error e => .error e
      | .ok _ =>
        match check_indirect img ino with
        | .error e => .error e
        | .ok _ =>
          match (if i = 1 then
                   (if ino.type ≠ T_DIR then .error .MissingRoot
                    else validate_dir img ino 1)
                 else if ino.type = T_DIR then validate_dir img ino i
                 else .ok ()) with
          | .error e => .error e
          | .ok _ => chk_bmp_addr img ino

/-- The main inode-table sweep of main(). -/
def sweep (img : Img) : Except Err Unit :=
  allE (inode_chk img) (List.range img.ninodes)

/-- The whole run of main() after init_img: the inode sweep, then bmp_chk,
then addrs_chk, then dir_chk.  The result is none when the modelled execution
performed an out-of-bounds scratch access or exceeded the traversal fuel. -/
def fcheck (img : Img) (fuel : Nat) : Option (Except Err Unit) :=
  match sweep img with
  | .error e => some (.error e)
  | .ok _ =>
    match bmp_chk img with
    | .error e => some (.error e)
    | .ok _ =>
      match addrs_chk img with
      | none => none
      | some (.error e) => some (.error e)
      | some (.ok _) => dir_chk img fuel

/-- The addresses that addrs_chk feeds to blk_usage_chk for one non-free
inode: the NDIRECT direct slots (zeros included, blk_usage_chk skips them) and,
when the indirect pointer is nonzero, the NINDIRECT addresses stored in the
indirect block.  The indirect pointer itself is absent. -/
def perInodeAddrs (img : Img) (ino : Dinode) : List Nat :=
  slotAddrs ino ++
  (if ino.addrs.getD NDIRECT 0 = 0 then []
   else (List.range NINDIRECT).map (img.blockUints (ino.addrs.getD NDIRECT 0)))

/-- The full sequence of addresses that addrs_chk counts, over the whole
inode table in scan order. -/
def refList (img : Img) : List Nat :=
  ((List.range img.ninodes).map (fun i =>
    if (img.inodeAt i).type = 0 then []
    else perInodeAddrs img (img.inodeAt i))).flatten

/-- All block addresses one inode uses, in the sense of the specification:
its nonzero direct addresses, its nonzero indirect pointer, and the nonzero
addresses inside its indirect block. -/
def inodeUsedAddrs (img : Img) (ino : Dinode) : List Nat :=
  (slotAddrs ino).filter (fun a => decide (a ≠ 0)) ++
  (if ino.addrs.getD NDIRECT 0 = 0 then []
   else ino.addrs.getD NDIRECT 0 ::
     ((List.range NINDIRECT).map
       (img.blockUints (ino.addrs.getD NDIRECT 0))).filter (fun a => decide (a ≠ 0)))

/-- All block addresses used by any non-free inode of the image. -/
def usedAddrs (img : Img) : List Nat :=
  ((List.range img.ninodes).map (fun i =>
    if (img.inodeAt i).type = 0 then []
    else inodeUsedAddrs img (img.inodeAt i))).flatten

/-- The checker pipeline with the backward bitmap loop of bmp_chk removed:
the forward phase bmpForward is called directly.  Used to compare runs with
and without the no-op backward phase. -/
def fcheckNB (img : Img) (fuel : Nat) : Option (Except Err Unit) :=
  match sweep img with
  | .error e => some (.error e)
  | .ok _ =>
    match bmpForward img with
    | .error e => some (.error e)
    | .ok _ =>
      match addrs_chk img with
      | none => none
      | some (.error e) => some (.error e)
      | some (.ok _) => dir_chk img fuel

/-- A directory entry named "." must carry the inode number of the directory
being validated. -/
def entryDotOk (inum : Nat) (de : Dirent) : Prop :=
  de.name = "." → de.inum = inum

/-- A directory entry named ".." must carry the inode number itself for the
root (inode 1) and a different inode number for every other directory. -/
def entryDdotOk (inum : Nat) (de : Dirent) : Prop :=
  de.name = ".." → ((inum = 1 → de.inum = 1) ∧ (inum ≠ 1 → de.inum ≠ inum))

/-- Every entry of the given block satisfies both entry conditions. -/
def blockOk (img : Img) (inum : Nat) (addr : Nat) : Prop :=
  ∀ de ∈ entriesOf img addr, entryDotOk inum de ∧ entryDdotOk inum de

/-- Some entry of the given block is named ".". -/
def hasDot (img : Img) (addr : Nat) : Bool :=
  (entriesOf img addr).any (fun de => decide (de.name = "."))

/-- Some entry of the given block is named "..". -/
def hasDdot (img : Img) (addr : Nat) : Bool :=
  (entriesOf img addr).any (fun de => decide (de.name = ".."))

instance (inum : Nat) (de : Dirent) : Decidable (entryDotOk inum de) := by
  unfold entryDotOk
  infer_instance

instance (inum : Nat) (de : Dirent) : Decidable (entryDdotOk inum de) := by
  unfold entryDdotOk
  infer_instance

instance (img : Img) (inum : Nat) (addr : Nat) : Decidable (blockOk img inum addr) := by
  unfold blockOk
  infer_instance

/-- The blocks that validate_dir actually examines, given the running dot and
dotdot flags: scanning stops before the first block at which both flags are
already set. -/
def scanBlocks (img : Img) (inum : Nat) : Bool → Bool → List Nat → List Nat
  | _, _, [] => []
  | d, dd, b :: l =>
    if d && dd then []
    else b :: scanBlocks img inum (d || hasDot img b) (dd || hasDdot img b) l

/-- All directory entries stored in the data blocks of an inode (direct
blocks and the blocks listed in its indirect block), per the specification
reading of scanning the data blocks of the inode. -/
def specDirEntries (img : Img) (ino : Dinode) : List Dirent :=
  (((perInodeAddrs img ino).filter (fun a => decide (a ≠ 0))).map (entriesOf img)).flatten

/-- The directory acceptance condition exactly as the claim states it:
exactly one entry named "." resolving to the inode number itself, and exactly
one entry named ".." resolving to the parent (itself for inode 1, a different
inode number otherwise). -/
def spec_dir_accepts (img : Img) (ino : Dinode) (inum : Nat) : Prop :=
  (specDirEntries img ino).countP
    (fun de => decide (de.name = "." ∧ de.inum = inum)) = 1 ∧
  (specDirEntries img ino).countP
    (fun de => decide (de.name = ".." ∧
      (if inum = 1 then de.inum = 1 else de.inum ≠ inum))) = 1

instance (img : Img) (ino : Dinode) (inum : Nat) : Decidable (spec_dir_accepts img ino inum) := by
  unfold spec_dir_accepts
  infer_instance

/-- One step of the directory-entry graph that traverse_dirs follows: inode i
is a directory and one of the blocks it scans holds an entry for inode j that
is nonempty and named neither "." nor "..". -/
def dirStep (img : Img) (i j : Nat) : Prop :=
  (img.inodeAt i).type = T_DIR ∧
  ∃ addr ∈ perInodeAddrs img (img.inodeAt i), addr ≠ 0 ∧
    ∃ k < DPB, (img.blockDirents addr k).inum = j ∧ j ≠ 0 ∧
      (img.blockDirents addr k).name ≠ "." ∧ (img.blockDirents addr k).name ≠ ".."

/-- A tiny healthy image: inode 1 is a directory whose only data block, 10,
holds just the "." and ".." self entries; every other inode is free.  With
ninodes = 4 and size = 30 its firstblk is 4. -/
def rootOnlyImg : Img where
  size := 30
  nblocks := 25
  ninodes := 4
  inodeAt := fun i => if i = 1 then ⟨T_DIR, 1, [10]⟩ else ⟨0, 0, []⟩
  bitmap := fun a => decide (a = 10)
  blockUints := fun _ _ => 0
  blockDirents := fun b k =>
    if b = 10 ∧ k = 0 then ⟨1, "."⟩
    else if b = 10 ∧ k = 1 then ⟨1, ".."⟩
    else ⟨0, ""⟩

/-- Like rootOnlyImg, but block 10 holds two "." entries that both resolve to
inode 1, plus a valid ".." entry. -/
def c1img : Img where
  size := 30
  nblocks := 25
  ninodes := 4
  inodeAt := fun i => if i = 1 then ⟨T_DIR, 1, [10]⟩ else ⟨0, 0, []⟩
  bitmap := fun a => decide (a = 10)
  blockUints := fun _ _ => 0
  blockDirents := fun b k =>
    if b = 10 ∧ k = 0 then ⟨1, "."⟩
    else if b = 10 ∧ k = 1 then ⟨1, "."⟩
    else if b = 10 ∧ k = 2 then ⟨1, ".."⟩
    else ⟨0, ""⟩

/-- Two file inodes whose indirect pointers are both block 7, with an
all-zero indirect block: the pointer block is shared but addrs_chk never
counts it. -/
def c2img : Img where
  size := 30
  nblocks := 25
  ninodes := 4
  inodeAt := fun i =>
    if i = 2 ∨ i = 3 then ⟨T_FILE, 1, [0, 0, 0, 0, 0, 0, 0, 0, 0, 0, 0, 0, 7]⟩
    else ⟨0, 0, []⟩
  bitmap := fun a => decide (a = 7)
  blockUints := fun _ _ => 0
  blockDirents := fun _ _ => ⟨0, ""⟩

/-- Two file inodes that share direct block 6: a genuine duplicate that
addrs_chk detects. -/
def c2wimg : Img where
  size := 30
  nblocks := 25
  ninodes := 4
  inodeAt := fun i =>
    if i = 2 ∨ i = 3 then ⟨T_FILE, 1, [6]⟩ else ⟨0, 0, []⟩
  bitmap := fun a => decide (a = 6)
  blockUints := fun _ _ => 0
  blockDirents := fun _ _ => ⟨0, ""⟩

/-- rootOnlyImg with one extra bitmap bit set at block 11, which no inode
references. -/
def c4img : Img where
  size := 30
  nblocks := 25
  ninodes := 4
  inodeAt := fun i => if i = 1 then ⟨T_DIR, 1, [10]⟩ else ⟨0, 0, []⟩
  bitmap := fun a => decide (a = 10 ∨ a = 11)
  blockUints := fun _ _ => 0
  blockDirents := fun b k =>
    if b = 10 ∧ k = 0 then ⟨1, "."⟩
    else if b = 10 ∧ k = 1 then ⟨1, ".."⟩
    else ⟨0, ""⟩

/-- An image with three violations at once: inode 2 has the invalid type tag
9, and inode 3 is a file holding direct block 20 twice while the bitmap bit of
block 20 is clear. -/
def c7img : Img where
  size := 30
  nblocks := 25
  ninodes := 4
  inodeAt := fun i =>
    if i = 1 then ⟨T_DIR, 1, [10]⟩
    else if i = 2 then ⟨9, 0, []⟩
    else if i = 3 then ⟨T_FILE, 1, [20, 20]⟩
    else ⟨0, 0, []⟩
  bitmap := fun a => decide (a = 10)
  blockUints := fun _ _ => 0
  blockDirents := fun b k =>
    if b = 10 ∧ k = 0 then ⟨1, "."⟩
    else if b = 10 ∧ k = 1 then ⟨1, ".."⟩
    else ⟨0, ""⟩

/-- An image whose only violations are a duplicated direct block 20 with its
bitmap bit clear (inode 2). -/
def c7wimg : Img where
  size := 30
  nblocks := 25
  ninodes := 4
  inodeAt := fun i =>
    if i = 1 then ⟨T_DIR, 1, [10]⟩
    else if i = 2 then ⟨T_FILE, 1, [20, 20]⟩
    else ⟨0, 0, []⟩
  bitmap := fun a => decide (a = 10)
  blockUints := fun _ _ => 0
  blockDirents := fun b k =>
    if b = 10 ∧ k = 0 then ⟨1, "."⟩
    else if b = 10 ∧ k = 1 then ⟨1, ".."⟩
    else ⟨0, ""⟩

/-- A directory cycle: inode 1 lists inode 2 under the name a, and inode 2
lists inode 1 back under the name b. -/
def cycImg : Img where
  size := 30
  nblocks := 25
  ninodes := 3
  inodeAt := fun i =>
    if i = 1 then ⟨T_DIR, 1, [100]⟩
    else if i = 2 then ⟨T_DIR, 1, [101]⟩
    else ⟨0, 0, []⟩
  bitmap := fun _ => true
  blockUints := fun _ _ => 0
  blockDirents := fun b k =>
    if b = 100 ∧ k = 0 then ⟨2, "a"⟩
    else if b = 101 ∧ k = 0 then ⟨1, "b"⟩
    else ⟨0, ""⟩

/-- An image with no inode in use at all: the directory-entry graph has no
edge. -/
def quietImg : Img where
  size := 30
  nblocks := 25
  ninodes := 4
  inodeAt := fun _ => ⟨0, 0, []⟩
  bitmap := fun _ => false
  blockUints := fun _ _ => 0
  blockDirents := fun _ _ => ⟨0, ""⟩

/-- allE succeeds iff every element passes its check. -/
theorem allE_ok_iff (f : α → Except Err Unit) (l : List α) :
    allE f l = .ok () ↔ ∀ a ∈ l, f a = .ok () := by
  induction l with
  | nil => simp [allE]
  | cons a l ih =>
    constructor
    · intro h b hb
      cases hfa : f a with
      | error e => rw [allE, hfa] at h; cases h
      | ok u =>
        cases u
        rw [allE, hfa] at h
        rw [List.mem_cons] at hb
        rcases hb with rfl | hb
        · exact hfa
        · exact ih.mp h b hb
    · intro h
      have hfa := h a (by simp)
      rw [allE, hfa]
      exact ih.mpr (fun b hb => h b (by simp [hb]))

/-- An allE failure comes from some element of the list. -/
theorem allE_error_mem (f : α → Except Err Unit) (l : List α) (e : Err) :
    allE f l = .error e → ∃ a ∈ l, f a = .error e := by
  induction l with
  | nil => intro h; cases h
  | cons a l ih =>
    intro h
    cases hfa : f a with
    | error e' =>
      rw [allE, hfa] at h
      cases h
      exact ⟨a, by simp, hfa⟩
    | ok u =>
      cases u
      rw [allE, hfa] at h
      rcases ih h with ⟨b, hb, hfb⟩
      exact ⟨b, by simp [hb], hfb⟩

/-- When every element either passes or fails with the single kind e, allE
fails with e exactly when some element fails. -/
theorem allE_error_iff (f : α → Except Err Unit) (l : List α) (e : Err)
    (hk : ∀ a ∈ l, f a = .ok () ∨ f a = .error e) :
    allE f l = .error e ↔ ∃ a ∈ l, f a = .error e := by
  constructor
  · exact allE_error_mem f l e
  · intro ⟨a, ha, hfa⟩
    cases hall : allE f l with
    | ok u =>
      cases u
      have := (allE_ok_iff f l).mp hall a ha
      rw [this] at hfa; cases hfa
    | error e' =>
      rcases allE_error_mem f l e' hall with ⟨b, hb, hfb⟩
      rcases hk b hb with h | h
      · rw [h] at hfb; cases hfb
      · rw [h] at hfb
        cases hfb
        rfl

/-- A foldX failure comes from some element of the list (at some state). -/
theorem foldX_error_mem (f : σ → α → Except Err σ) (s : σ) (l : List α) (e : Err) :
    foldX f s l = .error e → ∃ a ∈ l, ∃ t, f t a = .error e := by
  induction l generalizing s with
  | nil => intro h; cases h
  | cons a l ih =>
    intro h
    cases hfa : f s a with
    | error e' =>
      rw [foldX, hfa] at h
      cases h
      exact ⟨a, by simp, s, hfa⟩
    | ok s' =>
      rw [foldX, hfa] at h
      rcases ih s' h with ⟨b, hb, t, hft⟩
      exact ⟨b, by simp [hb], t, hft⟩

/-- A state invariant preserved by every successful step is preserved by a
successful foldX. -/
theorem foldX_inv (f : σ → α → Except Err σ) (P : σ → Prop)
    (hstep : ∀ t a t', P t → f t a = .ok t' → P t') :
    ∀ (l : List α) (s s' : σ), P s → foldX f s l = .ok s' → P s' := by
  intro l
  induction l with
  | nil => intro s s' hP h; cases h; exact hP
  | cons a l ih =>
    intro s s' hP h
    cases hfa : f s a with
    | error e => rw [foldX, hfa] at h; cases h
    | ok t =>
      rw [foldX, hfa] at h
      exact ih t s' (hstep s a t hP hfa) h

/-- If a foldX succeeds, every listed element was accepted at some state
satisfying a preserved invariant. -/
theorem foldX_ok_mem (f : σ → α → Except Err σ) (P : σ → Prop)
    (hstep : ∀ t a t', P t → f t a = .ok t' → P t') :
    ∀ (l : List α) (s s' : σ), P s → foldX f s l = .ok s' →
      ∀ a ∈ l, ∃ t t', P t ∧ f t a = .ok t' := by
  intro l
  induction l with
  | nil => intro s s' _ _ b hb; cases hb
  | cons a l ih =>
    intro s s' hP h b hb
    cases hfa : f s a with
    | error e => rw [foldX, hfa] at h; cases h
    | ok t =>
      rw [foldX, hfa] at h
      rw [List.mem_cons] at hb
      rcases hb with rfl | hb
      · exact ⟨s, t, hP, hfa⟩
      · exact ih t s' (hstep s a t hP hfa) h b hb

/-- A foldOpt failure comes from some element of the list (at some state). -/
theorem foldOpt_none_mem (f : σ → α → Option σ) (s : σ) (l : List α) :
    foldOpt f s l = none → ∃ a ∈ l, ∃ t, f t a = none := by
  induction l generalizing s with
  | nil => intro h; cases h
  | cons a l ih =>
    intro h
    cases hfa : f s a with
    | none => exact ⟨a, by simp, s, hfa⟩
    | some s' =>
      rw [foldOpt, hfa] at h
      rcases ih s' h with ⟨b, hb, t, hft⟩
      exact ⟨b, by simp [hb], t, hft⟩

/-- foldOX over an appended list runs the two halves in sequence. -/
theorem foldOX_append (f : σ → α → Option (Except Err σ)) (s : σ) (l1 l2 : List α) :
    foldOX f s (l1 ++ l2) =
      match foldOX f s l1 with
      | none => none
      | some (.error e) => some (.error e)
      | some (.ok t) => foldOX f t l2 := by
  induction l1 generalizing s with
  | nil => simp [foldOX]
  | cons a l1 ih =>
    rw [List.cons_append, foldOX, foldOX]
    cases hfa : f s a with
    | none => rfl
    | some r =>
      cases r with
      | error e => rfl
      | ok s' => exact ih s'

/-- foldOX over a mapped list. -/
theorem foldOX_map (f : σ → β → Option (Except Err σ)) (g : α → β) (s : σ) (l : List α) :
    foldOX f s (l.map g) = foldOX (fun t a => f t (g a)) s l := by
  induction l generalizing s with
  | nil => rfl
  | cons a l ih =>
    rw [List.map_cons, foldOX, foldOX]
    cases f s (g a) with
    | none => rfl
    | some r =>
      cases r with
      | error e => rfl
      | ok s' => exact ih s'

/-- Claim C3, counterexample: with ninodes = 8 (and a superblock satisfying
ninodes > 0 and size > nblocks), the layout resolver computes 2 inode-table
blocks, not ceil(8 / IPB) = 1. -/
theorem c3_counterexample :
    0 < 8 ∧ 50 < 100 ∧ ninodeblks 8 ≠ (8 + IPB - 1) / IPB := by
  refine ⟨by decide, by decide, by decide⟩

/-- Claim C3 (amended): the layout resolver computes the inode-table block
count as ninodes / IPB + 1 and the bitmap block count as size / BPB + 1, which
equal the ceilings exactly when IPB (resp. BPB) does not divide the operand
and exceed them by one when it does; firstblk is 2 plus the two counts. -/
theorem c3_layout_resolver :
    ∀ n s : Nat,
      ninodeblks n = (n + IPB - 1) / IPB + (if IPB ∣ n then 1 else 0)
      ∧ nbitmapblks s = (s + BPB - 1) / BPB + (if BPB ∣ s then 1 else 0)
      ∧ firstblkOf n s = 2 + ninodeblks n + nbitmapblks s := by
  intro n s
  refine ⟨?_, ?_, ?_⟩
  · simp only [ninodeblks, IPB]
    split_ifs with h
    · omega
    · omega
  · simp only [nbitmapblks, BPB]
    split_ifs with h
    · omega
    · omega
  · simp only [firstblkOf]
    omega

/-- Claim C8, counterexample: the reference-count table entry seeded for the
root inode is 1, not 2. -/
theorem c8_counterexample : dirChkSeed 1 = 1 ∧ dirChkSeed 1 ≠ 2 := by
  decide

/-- Claim C8 (amended): before traversal dir_chk seeds the reference-count
table by incrementing entries 0 and 1 once each, so the root inode starts at
count 1 (as does inode 0) and every other entry at 0; the root self
references are not discovered by scanning either, since traversal skips
entries named "." and ".." (on an image whose root block holds only those two
entries, traversal returns the seed table unchanged). -/
theorem c8_seed :
    dirChkSeed 0 = 1 ∧ dirChkSeed 1 = 1 ∧ (∀ i, 2 ≤ i → dirChkSeed i = 0) ∧
    traverse_dirs rootOnlyImg 2 1 dirChkSeed = some dirChkSeed := by
  refine ⟨rfl, rfl, ?_, rfl⟩
  intro i hi
  simp only [dirChkSeed, inc]
  rw [if_neg (by omega), if_neg (by omega)]

theorem c8_seed_witness : dirChkSeed 5 = 0 := c8_seed.2.2.1 5 (by decide)

/-- Claim C10 (confirmed): a nonzero address below firstblk passes valid_addr
but makes blk_usage_chk index its array at a wrapped-around unsigned offset,
which in this total embedding is an out-of-bounds access (none), so no
DuplicateBlockUse verdict is produced for such an address. -/
theorem c10_low_address_oob :
    ∀ (img : Img) (counts : List Nat) (addr : Nat),
      valid_addr img addr = true →
      addr < img.firstblk →
      img.firstblk < U32 →
      counts.length + (img.firstblk - addr) ≤ U32 →
      blk_usage_chk counts img.firstblk addr = none
      ∧ blk_usage_chk counts img.firstblk addr ≠ some (.error .DuplicateBlockUse) := by
  intro img counts addr hva hlow hfb hlen
  have h0 : 0 < addr := by
    have := of_decide_eq_true (Bool.and_elim_left hva)
    exact this
  have hne : ¬ (addr = 0) := by omega
  have hmain : blk_usage_chk counts img.firstblk addr = none := by
    unfold blk_usage_chk
    rw [if_neg hne]
    have hmod : img.firstblk % U32 = img.firstblk := Nat.mod_eq_of_lt hfb
    have hidx : (addr + (U32 - img.firstblk % U32)) % U32 = U32 - (img.firstblk - addr) := by
      rw [hmod, Nat.mod_eq_of_lt (by omega)]
      omega
    rw [hidx]
    have hnone : counts[U32 - (img.firstblk - addr)]? = none :=
      List.getElem?_eq_none (by omega)
    simp [hnone]
  refine ⟨hmain, ?_⟩
  rw [hmain]
  intro h
  cases h

theorem c10_witness :
    blk_usage_chk (List.replicate 5 0) rootOnlyImg.firstblk 3 = none :=
  (c10_low_address_oob rootOnlyImg (List.replicate 5 0) 3
    (by decide) (by decide) (by decide) (by decide)).1

/-- The one-address body used by check_direct and check_indirect succeeds iff
a nonzero address is valid. -/
theorem slot_ok_iff (img : Img) (addr : Nat) (e : Err) :
    ((if addr = 0 then Except.ok () else if valid_addr img addr then Except.ok ()
      else Except.error e) = (Except.ok () : Except Err Unit)) ↔
    (addr ≠ 0 → valid_addr img addr = true) := by
  split_ifs with h1 h2 <;> simp_all

/-- The one-address body fails with its error kind iff the address is nonzero
and invalid. -/
theorem slot_error_iff (img : Img) (addr : Nat) (e : Err) :
    ((if addr = 0 then Except.ok () else if valid_addr img addr then Except.ok ()
      else Except.error e) = (Except.error e : Except Err Unit)) ↔
    (addr ≠ 0 ∧ valid_addr img addr = false) := by
  split_ifs with h1 h2 <;> simp_all

/-- The one-address body either succeeds or fails with its single kind. -/
theorem slot_kinds (img : Img) (addr : Nat) (e : Err) :
    ((if addr = 0 then Except.ok () else if valid_addr img addr then Except.ok ()
      else Except.error e) = (Except.ok () : Except Err Unit)) ∨
    ((if addr = 0 then Except.ok () else if valid_addr img addr then Except.ok ()
      else Except.error e) = (Except.error e : Except Err Unit)) := by
  split_ifs <;> simp

/-- Claim C5 (confirmed): valid_addr accepts exactly the addresses in
(0, size); free inodes are skipped by the sweep; a nonzero direct slot fails
with BadDirectAddress exactly when it is invalid, and the indirect checks fail
with BadIndirectAddress exactly when the nonzero indirect pointer or a nonzero
address inside the indirect block is invalid, zero slots being skipped. -/
theorem c5_address_validation (img : Img) :
    (∀ addr, valid_addr img addr = true ↔ (0 < addr ∧ addr < img.size))
    ∧ (∀ i, (img.inodeAt i).type = 0 → inode_chk img i = .ok ())
    ∧ ∀ ino : Dinode,
        (check_direct img ino = .ok () ↔
          ∀ i < NDIRECT, ino.addrs.getD i 0 ≠ 0 →
            valid_addr img (ino.addrs.getD i 0) = true)
        ∧ (check_direct img ino = .error .BadDirectAddress ↔
          ∃ i < NDIRECT, ino.addrs.getD i 0 ≠ 0 ∧
            valid_addr img (ino.addrs.getD i 0) = false)
        ∧ (check_indirect img ino = .ok () ↔
          (ino.addrs.getD NDIRECT 0 = 0 ∨
            (valid_addr img (ino.addrs.getD NDIRECT 0) = true ∧
             ∀ j < NINDIRECT, img.blockUints (ino.addrs.getD NDIRECT 0) j ≠ 0 →
               valid_addr img (img.blockUints (ino.addrs.getD NDIRECT 0) j) = true)))
        ∧ (check_indirect img ino = .error .BadIndirectAddress ↔
          (ino.addrs.getD NDIRECT 0 ≠ 0 ∧
            (valid_addr img (ino.addrs.getD NDIRECT 0) = false ∨
             ∃ j < NINDIRECT, img.blockUints (ino.addrs.getD NDIRECT 0) j ≠ 0 ∧
               valid_addr img (img.blockUints (ino.addrs.getD NDIRECT 0) j) = false))) := by
  refine ⟨?_, ?_, ?_⟩
  · intro addr
    simp [valid_addr]
  · intro i h
    simp [inode_chk, h]
  · intro ino
    refine ⟨?_, ?_, ?_, ?_⟩
    · rw [check_direct, allE_ok_iff]
      constructor
      · intro h i hi hne
        exact (slot_ok_iff img _ _).mp (h i (List.mem_range.mpr hi)) hne
      · intro h i hi
        exact (slot_ok_iff img _ _).mpr (h i (List.mem_range.mp hi))
    · rw [check_direct, allE_error_iff _ _ _ (fun i _ => slot_kinds img _ _)]
      constructor
      · intro ⟨i, hi, h⟩
        exact ⟨i, List.mem_range.mp hi, (slot_error_iff img _ _).mp h⟩
      · intro ⟨i, hi, h⟩
        exact ⟨i, List.mem_range.mpr hi, (slot_error_iff img _ _).mpr h⟩
    · rw [check_indirect]
      by_cases hind : ino.addrs.getD NDIRECT 0 = 0
      · rw [if_pos hind]
        exact iff_of_true rfl (Or.inl hind)
      · rw [if_neg hind]
        cases hval : valid_addr img (ino.addrs.getD NDIRECT 0) with
        | false =>
          rw [if_pos (show (!false) = true from rfl)]
          constructor
          · intro h; cases h
          · rintro (h | ⟨h1, -⟩)
            · exact absurd h hind
            · exact (Bool.false_ne_true h1).elim
        | true =>
          simp only [hval, Bool.not_true]
          rw [if_neg Bool.false_ne_true, allE_ok_iff]
          constructor
          · intro h
            refine Or.inr ⟨by trivial, fun j hj hne => ?_⟩
            exact (slot_ok_iff img _ _).mp (h j (List.mem_range.mpr hj)) hne
          · intro h j hj
            rcases h with h | ⟨_, h2⟩
            · exact absurd h hind
            · exact (slot_ok_iff img _ _).mpr (h2 j (List.mem_range.mp hj))
    · rw [check_indirect]
      by_cases hind : ino.addrs.getD NDIRECT 0 = 0
      · rw [if_pos hind]
        constructor
        · intro h; cases h
        · rintro ⟨h, -⟩
          exact absurd hind h
      · rw [if_neg hind]
        cases hval : valid_addr img (ino.addrs.getD NDIRECT 0) with
        | false =>
          rw [if_pos (show (!false) = true from rfl)]
          exact iff_of_true rfl ⟨hind, Or.inl rfl⟩
        | true =>
          simp only [hval, Bool.not_true]
          rw [if_neg Bool.false_ne_true, allE_error_iff _ _ _ (fun j _ => slot_kinds img _ _)]
          constructor
          · intro ⟨j, hj, h⟩
            exact ⟨hind, Or.inr ⟨j, List.mem_range.mp hj, (slot_error_iff img _ _).mp h⟩⟩
          · rintro ⟨-, h | ⟨j, hj, h⟩⟩
            · simp at h
            · exact ⟨j, List.mem_range.mpr hj, (slot_error_iff img _ _).mpr h⟩

theorem c5_witness :
    check_direct rootOnlyImg ⟨T_FILE, 1, [31]⟩ = .error .BadDirectAddress :=
  ((c5_address_validation rootOnlyImg).2.2 ⟨T_FILE, 1, [31]⟩).2.1.mpr
    ⟨0, by decide, by decide, by decide⟩

/-- chkInode written as one cascade of conditions, in source order. -/
theorem chkInode_eq (ino : Dinode) (c : Nat) :
    chkInode ino c =
      if ino.type ≠ 0 ∧ c = 0 then .error .InodeNotInAnyDirectory
      else if 0 < c ∧ ino.type = 0 then .error .DanglingDirectoryReference
      else if ino.type = T_FILE ∧ ino.nlink ≠ (c : Int) then .error .BadLinkCount
      else if ino.type = T_DIR ∧ 1 < c then .error .DirectoryHardLinked
      else .ok () := by
  unfold chkInode chk_in_use chk_in_free chk_ref_cnt chk_dir_once
  split_ifs <;> rfl

/-- Claim C6 (confirmed): for an inode of the generic sweep with accumulated
count c, the reconciler reports InodeNotInAnyDirectory iff the inode is
non-free with count 0, DanglingDirectoryReference iff the count is positive on
a free inode, BadLinkCount iff a file inode has nlink different from a nonzero
count (a zero count is claimed by the earlier check), DirectoryHardLinked iff
a directory has count above 1; device inodes with a positive count pass, and
dir_chk runs exactly these checks for inode numbers 2 to ninodes - 1. -/
theorem c6_reference_reconciler :
    ∀ (ino : Dinode) (c : Nat),
      (chkInode ino c = .error .InodeNotInAnyDirectory ↔ (ino.type ≠ 0 ∧ c = 0))
      ∧ (chkInode ino c = .error .DanglingDirectoryReference ↔ (0 < c ∧ ino.type = 0))
      ∧ (chkInode ino c = .error .BadLinkCount ↔
          (ino.type = T_FILE ∧ ino.nlink ≠ (c : Int) ∧ c ≠ 0))
      ∧ (chkInode ino c = .error .DirectoryHardLinked ↔ (ino.type = T_DIR ∧ 1 < c))
      ∧ (ino.type = T_DEV → 0 < c → chkInode ino c = .ok ())
      ∧ (∀ (img : Img) (fuel : Nat) (m : Nat → Nat),
          traverse_dirs img fuel 1 dirChkSeed = some m →
          (dir_chk img fuel = some (.ok ()) ↔
            ∀ n, 2 ≤ n → n < img.ninodes → chkInode (img.inodeAt n) (m n) = .ok ())) := by
  intro ino c
  refine ⟨?_, ?_, ?_, ?_, ?_, ?_⟩
  · rw [chkInode_eq]
    simp only [T_FILE, T_DIR, T_DEV]
    split_ifs with h1 h2 h3 h4 <;> simp <;> omega
  · rw [chkInode_eq]
    simp only [T_FILE, T_DIR, T_DEV]
    split_ifs with h1 h2 h3 h4 <;> simp <;> omega
  · rw [chkInode_eq]
    simp only [T_FILE, T_DIR, T_DEV]
    split_ifs with h1 h2 h3 h4 <;> simp <;> omega
  · rw [chkInode_eq]
    simp only [T_FILE, T_DIR, T_DEV]
    split_ifs with h1 h2 h3 h4 <;> simp <;> omega
  · intro hdev hc
    rw [chkInode_eq]
    simp only [T_FILE, T_DIR, T_DEV] at *
    rw [if_neg (by omega), if_neg (by omega), if_neg (by simp [hdev]), if_neg (by simp [hdev])]
  · intro img fuel m htrav
    rw [dir_chk, htrav]
    rw [Option.some_inj]
    rw [allE_ok_iff]
    constructor
    · intro h n h2 hn
      exact h n (List.mem_range'_1.mpr ⟨h2, by omega⟩)
    · intro h n hn
      have := List.mem_range'_1.mp hn
      exact h n this.1 (by omega)

theorem c6_witness :
    chkInode ⟨T_FILE, 2, []⟩ 1 = .error .BadLinkCount :=
  ((c6_reference_reconciler ⟨T_FILE, 2, []⟩ 1).2.2.1).mpr (by decide)

/-- Claim C4 (confirmed): on any image with a bitmap bit set for a block no
inode references, bmp_chk errs exactly when its forward phase errs, succeeds
exactly when the forward phase succeeds, and the whole run is identical to a
run whose bmp_chk has the backward loop removed: the backward discrepancy is
computed and discarded, and checking proceeds to addrs_chk and dir_chk. -/
theorem c4_backward_not_enforced :
    ∀ (img : Img) (fuel : Nat),
      (∃ i, i < img.size ∧ img.bitmap i = true ∧ i ∉ usedAddrs img) →
      (∀ e, bmp_chk img = .error e ↔ bmpForward img = .error e)
      ∧ (bmp_chk img = .ok () ↔ ∃ cl, bmpForward img = .ok cl)
      ∧ fcheck img fuel = fcheckNB img fuel := by
  intro img fuel _
  refine ⟨?_, ?_, ?_⟩
  · intro e
    unfold bmp_chk
    cases hb : bmpForward img with
    | error e' => simp
    | ok cl =>
      constructor
      · intro h; cases h
      · intro h; cases h
  · unfold bmp_chk
    cases hb : bmpForward img with
    | error e' =>
      constructor
      · intro h; cases h
      · intro ⟨cl, h⟩; cases h
    | ok cl =>
      exact iff_of_true rfl ⟨cl, rfl⟩
  · unfold fcheck fcheckNB
    cases hs : sweep img with
    | error e => rfl
    | ok u =>
      cases u
      unfold bmp_chk
      cases hb : bmpForward img with
      | error e => rfl
      | ok cl => rfl

theorem c4_witness :
    fcheck c4img 2 = fcheckNB c4img 2 :=
  (c4_backward_not_enforced c4img 2 ⟨11, by decide, by decide, by decide⟩).2.2

/-- Reading an index below the length with get? yields the getD value. -/
theorem get?_lt_eq (l : List Nat) (n : Nat) (h : n < l.length) :
    l.get? n = some (l.getD n 0) := by
  rw [List.get?_eq_getElem?, List.getD_eq_getElem?_getD, List.getElem?_eq_getElem h]
  rfl

/-- getD after setting the same in-bounds index. -/
theorem getD_set_self (l : List Nat) (n v : Nat) (h : n < l.length) :
    (l.set n v).getD n 0 = v := by
  rw [List.getD_eq_getElem?_getD, List.getElem?_set_self]
  · rfl
  · exact h

/-- getD after setting a different index. -/
theorem getD_set_ne (l : List Nat) (m n v : Nat) (h : m ≠ n) :
    (l.set m v).getD n 0 = l.getD n 0 := by
  rw [List.getD_eq_getElem?_getD, List.getD_eq_getElem?_getD, List.getElem?_set_ne h]

/-- Every entry of an all-zero table is zero. -/
theorem getD_replicate_zero : ∀ (n k : Nat), (List.replicate n (0 : Nat)).getD k 0 = 0 := by
  intro n
  induction n with
  | zero => intro k; rfl
  | succ n ih =>
    intro k
    rw [List.replicate_succ]
    cases k with
    | zero => rfl
    | succ k => exact ih k

/-- The wrapped index computed by blk_usage_chk is the plain offset for an
address inside the counted window. -/
theorem usage_idx_eq (s a L : Nat) (hs : s < U32) (hL : L ≤ U32)
    (hlo : s ≤ a) (hhi : a < s + L) :
    (a + (U32 - s % U32)) % U32 = a - s := by
  have h1 : a + (U32 - s % U32) = (a - s) + U32 := by
    rw [Nat.mod_eq_of_lt hs]
    omega
  rw [h1, Nat.add_mod_right, Nat.mod_eq_of_lt (by omega)]

/-- blk_usage_chk on an in-window address already counted at least once
reports DuplicateBlockUse. -/
theorem blk_usage_chk_dup (counts : List Nat) (s a : Nat)
    (h0 : a ≠ 0) (hs : s < U32) (hL : counts.length ≤ U32)
    (hlo : s ≤ a) (hhi : a < s + counts.length)
    (hc : 1 ≤ counts.getD (a - s) 0) :
    blk_usage_chk counts s a = some (.error .DuplicateBlockUse) := by
  unfold blk_usage_chk
  rw [if_neg h0]
  have hidx := usage_idx_eq s a counts.length hs hL hlo hhi
  simp only [hidx]
  rw [get?_lt_eq counts (a - s) (by omega)]
  simp only []
  rw [if_pos (by omega)]

/-- blk_usage_chk on an in-window address not yet counted records it. -/
theorem blk_usage_chk_fresh (counts : List Nat) (s a : Nat)
    (h0 : a ≠ 0) (hs : s < U32) (hL : counts.length ≤ U32)
    (hlo : s ≤ a) (hhi : a < s + counts.length)
    (hc : counts.getD (a - s) 0 = 0) :
    blk_usage_chk counts s a = some (.ok (counts.set (a - s) 1)) := by
  unfold blk_usage_chk
  rw [if_neg h0]
  have hidx := usage_idx_eq s a counts.length hs hL hlo hhi
  simp only [hidx]
  rw [get?_lt_eq counts (a - s) (by omega)]
  simp only []
  rw [if_neg (by omega), hc]

/-- blk_usage_chk skips a zero address. -/
theorem blk_usage_chk_zero (counts : List Nat) (s : Nat) :
    blk_usage_chk counts s 0 = some (.ok counts) := by
  unfold blk_usage_chk
  rw [if_pos rfl]

/-- Core accounting for the duplicate-use sweep: when every nonzero address
of the list lies in the counted window, the fold never goes out of bounds and
reports DuplicateBlockUse exactly when some address's prior count plus its
multiplicity in the list reaches two. -/
theorem usage_fold_spec :
    ∀ (l : List Nat) (counts : List Nat) (s : Nat),
      s < U32 → counts.length ≤ U32 →
      (∀ a ∈ l, a ≠ 0 → s ≤ a ∧ a < s + counts.length) →
      (foldOX (fun c a => blk_usage_chk c s a) counts l ≠ none)
      ∧ (foldOX (fun c a => blk_usage_chk c s a) counts l
          = some (.error .DuplicateBlockUse) ↔
          ∃ x ∈ l, x ≠ 0 ∧ 2 ≤ counts.getD (x - s) 0 + l.count x) := by
  intro l
  induction l with
  | nil =>
    intro counts s _ _ _
    refine ⟨by simp [foldOX], ?_⟩
    constructor
    · intro h; cases h
    · rintro ⟨x, hx, -⟩; cases hx
  | cons a l ih =>
    intro counts s hs hL hrange
    by_cases ha : a = 0
    · subst ha
      have hstep := blk_usage_chk_zero counts s
      have hrest : ∀ x ∈ l, x ≠ 0 → s ≤ x ∧ x < s + counts.length :=
        fun x hx => hrange x (List.mem_cons_of_mem _ hx)
      obtain ⟨h1, h2⟩ := ih counts s hs hL hrest
      rw [foldOX, hstep]
      refine ⟨h1, ?_⟩
      rw [h2]
      constructor
      · rintro ⟨x, hx, hx0, hcnt⟩
        refine ⟨x, List.mem_cons_of_mem _ hx, hx0, ?_⟩
        rwa [List.count_cons, if_neg (by simp [Ne.symm hx0]), Nat.add_zero]
      · rintro ⟨x, hx, hx0, hcnt⟩
        rw [List.mem_cons] at hx
        rcases hx with rfl | hx
        · exact absurd rfl hx0
        · refine ⟨x, hx, hx0, ?_⟩
          rwa [List.count_cons, if_neg (by simp [Ne.symm hx0]), Nat.add_zero] at hcnt
    · have hr := hrange a (List.mem_cons_self _ _) ha
      by_cases hdup : 1 ≤ counts.getD (a - s) 0
      · have hstep := blk_usage_chk_dup counts s a ha hs hL hr.1 hr.2 hdup
        rw [foldOX, hstep]
        refine ⟨by simp, ?_⟩
        refine iff_of_true rfl ⟨a, List.mem_cons_self _ _, ha, ?_⟩
        rw [List.count_cons_self]
        omega
      · have hc0 : counts.getD (a - s) 0 = 0 := by omega
        have hstep := blk_usage_chk_fresh counts s a ha hs hL hr.1 hr.2 hc0
        rw [foldOX, hstep]
        have hlen' : (counts.set (a - s) 1).length = counts.length := List.length_set counts _ _
        have hrest : ∀ x ∈ l, x ≠ 0 → s ≤ x ∧ x < s + (counts.set (a - s) 1).length := by
          intro x hx hx0
          rw [hlen']
          exact hrange x (List.mem_cons_of_mem _ hx) hx0
        obtain ⟨h1, h2⟩ := ih (counts.set (a - s) 1) s hs (by rwa [hlen']) hrest
        refine ⟨h1, ?_⟩
        rw [h2]
        constructor
        · rintro ⟨x, hx, hx0, hcnt⟩
          by_cases hxa : x = a
          · subst hxa
            rw [getD_set_self counts _ _ (by omega)] at hcnt
            refine ⟨x, List.mem_cons_self _ _, hx0, ?_⟩
            rw [List.count_cons_self, hc0]
            omega
          · have hxr := hrange x (List.mem_cons_of_mem _ hx) hx0
            rw [getD_set_ne counts _ _ _ (by omega)] at hcnt
            refine ⟨x, List.mem_cons_of_mem _ hx, hx0, ?_⟩
            rwa [List.count_cons, if_neg (by simp only [beq_iff_eq]; omega), Nat.add_zero]
        · rintro ⟨x, hx, hx0, hcnt⟩
          by_cases hxa : x = a
          · subst hxa
            rw [List.count_cons_self, hc0] at hcnt
            have hmem : x ∈ l := List.count_pos_iff.mp (by omega)
            refine ⟨x, hmem, hx0, ?_⟩
            rw [getD_set_self counts _ _ (by omega)]
            omega
          · rw [List.mem_cons] at hx
            rcases hx with rfl | hx
            · exact absurd rfl hxa
            · have hxr := hrange x (List.mem_cons_of_mem _ hx) hx0
              refine ⟨x, hx, hx0, ?_⟩
              rw [getD_set_ne counts _ _ _ (by omega)]
              rwa [List.count_cons, if_neg (by simp only [beq_iff_eq]; omega), Nat.add_zero] at hcnt

/-- Rebuilding an Option-Except value by cases is the identity. -/
theorem matchOX_id (x : Option (Except Err σ)) :
    (match x with
     | none => none
     | some (.error e) => some (.error e)
     | some (.ok t) => some (.ok t)) = x := by
  rcases x with - | r
  · rfl
  · rcases r with e | t <;> rfl

/-- inode_usage is the flat duplicate-count fold over the addresses that
addrs_chk feeds to blk_usage_chk for this inode. -/
theorem inode_usage_eq (img : Img) (counts : List Nat) (ino : Dinode) :
    inode_usage img counts ino =
      foldOX (fun c a => blk_usage_chk c img.firstblk a) counts (perInodeAddrs img ino) := by
  rw [perInodeAddrs, foldOX_append, slotAddrs, foldOX_map]
  unfold inode_usage
  cases h1 : foldOX (fun c j => blk_usage_chk c img.firstblk (ino.addrs.getD j 0))
      counts (List.range NDIRECT) with
  | none => rfl
  | some r =>
    cases r with
    | error e => rfl
    | ok c1 =>
      dsimp only
      by_cases hind : ino.addrs.getD NDIRECT 0 = 0
      · rw [if_pos hind, if_pos hind]
        rfl
      · rw [if_neg hind, if_neg hind, foldOX_map]

/-- The whole-table duplicate-count fold equals the flat fold over refList. -/
theorem table_fold_eq (img : Img) :
    ∀ (n : Nat) (counts : List Nat),
      foldOX (fun counts i =>
          let ino := img.inodeAt i
          if ino.type = 0 then some (.ok counts)
          else inode_usage img counts ino) counts (List.range n) =
      foldOX (fun c a => blk_usage_chk c img.firstblk a) counts
        (((List.range n).map (fun i =>
          if (img.inodeAt i).type = 0 then []
          else perInodeAddrs img (img.inodeAt i))).flatten) := by
  intro n
  induction n with
  | zero => intro counts; rfl
  | succ n ih =>
    intro counts
    rw [List.range_succ, List.map_append, List.flatten_append, foldOX_append, foldOX_append, ih]
    cases hmid : foldOX (fun c a => blk_usage_chk c img.firstblk a) counts
        (((List.range n).map (fun i =>
          if (img.inodeAt i).type = 0 then []
          else perInodeAddrs img (img.inodeAt i))).flatten) with
    | none => rfl
    | some r =>
      cases r with
      | error e => rfl
      | ok t =>
        dsimp only
        by_cases htype : (img.inodeAt n).type = 0
        · have hL : foldOX (fun counts i =>
              let ino := img.inodeAt i
              if ino.type = 0 then some (.ok counts)
              else inode_usage img counts ino) t [n] = some (.ok t) := by
            dsimp only [foldOX]
            rw [if_pos htype]
          have hR : ((([n] : List Nat).map (fun i =>
              if (img.inodeAt i).type = 0 then []
              else perInodeAddrs img (img.inodeAt i))).flatten : List Nat) = [] := by
            simp [htype]
          rw [hL, hR]
          rfl
        · have hL : foldOX (fun counts i =>
              let ino := img.inodeAt i
              if ino.type = 0 then some (.ok counts)
              else inode_usage img counts ino) t [n] =
              inode_usage img t (img.inodeAt n) := by
            dsimp only [foldOX]
            rw [if_neg htype]
            cases hres : inode_usage img t (img.inodeAt n) with
            | none => rfl
            | some r2 =>
              cases r2 with
              | error e => rfl
              | ok t2 => rfl
          have hR : ((([n] : List Nat).map (fun i =>
              if (img.inodeAt i).type = 0 then []
              else perInodeAddrs img (img.inodeAt i))).flatten : List Nat) =
              perInodeAddrs img (img.inodeAt n) := by
            simp [htype]
          rw [hL, hR]
          exact inode_usage_eq img t (img.inodeAt n)

/-- addrs_chk in terms of the flat fold over refList. -/
theorem addrs_chk_eq (img : Img) :
    addrs_chk img =
      (match foldOX (fun c a => blk_usage_chk c img.firstblk a)
          (List.replicate img.nblocks 0) (refList img) with
       | none => none
       | some (.error e) => some (.error e)
       | some (.ok _) => some (.ok ())) := by
  unfold addrs_chk refList
  rw [table_fold_eq]

/-- Claim C2 (amended): when every counted address lies inside the usage
window [firstblk, firstblk + nblocks) (so that no usage-array access is out
of bounds), addrs_chk reports DuplicateBlockUse exactly when some nonzero
address occurs more than once among the counted slots, namely the nonzero
direct slots and the nonzero addresses stored inside indirect blocks of
non-free inodes; the indirect pointer block address itself is not counted. -/
theorem c2_duplicate_use :
    ∀ img : Img,
      img.firstblk < U32 →
      img.nblocks ≤ U32 →
      (∀ a ∈ refList img, a ≠ 0 → img.firstblk ≤ a ∧ a < img.firstblk + img.nblocks) →
      (addrs_chk img = some (.error .DuplicateBlockUse) ↔
        ∃ a ∈ refList img, a ≠ 0 ∧ 2 ≤ (refList img).count a)
      ∧ addrs_chk img ≠ none := by
  intro img h1 h2 h3
  have hlen : (List.replicate img.nblocks (0 : Nat)).length = img.nblocks :=
    List.length_replicate _ _
  obtain ⟨hnn, hiff⟩ := usage_fold_spec (refList img) (List.replicate img.nblocks 0)
    img.firstblk h1 (by rwa [hlen]) (by intro a ha h0; rw [hlen]; exact h3 a ha h0)
  rw [addrs_chk_eq]
  cases hfold : foldOX (fun c a => blk_usage_chk c img.firstblk a)
      (List.replicate img.nblocks 0) (refList img) with
  | none => exact absurd hfold hnn
  | some r =>
    rw [hfold] at hiff
    cases r with
    | error e =>
      refine ⟨?_, by intro h; cases h⟩
      constructor
      · intro h
        have he : e = .DuplicateBlockUse := by
          cases h
          rfl
        rw [he] at hiff
        rcases hiff.mp rfl with ⟨a, ha, h0, hc⟩
        exact ⟨a, ha, h0, by rwa [getD_replicate_zero, Nat.zero_add] at hc⟩
      · intro ⟨a, ha, h0, hc⟩
        have : (some (Except.error e) : Option (Except Err (List Nat))) =
            some (Except.error Err.DuplicateBlockUse) := by
          rw [hiff]
          exact ⟨a, ha, h0, by rwa [getD_replicate_zero, Nat.zero_add]⟩
        cases this
        rfl
    | ok t =>
      refine ⟨?_, by intro h; cases h⟩
      constructor
      · intro h; cases h
      · intro ⟨a, ha, h0, hc⟩
        have : (some (Except.ok t) : Option (Except Err (List Nat))) =
            some (Except.error Err.DuplicateBlockUse) := by
          rw [hiff]
          exact ⟨a, ha, h0, by rwa [getD_replicate_zero, Nat.zero_add]⟩
        cases this

theorem c2_witness :
    addrs_chk c2wimg = some (.error .DuplicateBlockUse) :=
  ((c2_duplicate_use c2wimg (by decide) (by decide) (by decide)).1).mpr
    ⟨6, by decide, by decide, by decide⟩

/-- Claim C2, counterexample: on c2img two inodes share indirect pointer
block 7, which the claim counts as a referenced address in its own right, yet
addrs_chk accepts the image because the pointer block itself is never fed to
blk_usage_chk. -/
theorem c2_counterexample :
    addrs_chk c2img = some (.ok ()) ∧
    ∃ a ∈ usedAddrs c2img, 2 ≤ (usedAddrs c2img).count a := by
  constructor
  · decide
  · exact ⟨7, by decide, by decide⟩

/-- Full characterization of the per-block entry scan: it succeeds iff every
entry obeys the "." and ".." rules, and then the returned flags are the input
flags joined with whether the block contains a "." or a ".." entry. -/
theorem procEntries_ok_iff :
    ∀ (l : List Dirent) (inum : Nat) (s p : Bool × Bool),
      procEntries inum s l = .ok p ↔
        ((∀ de ∈ l, entryDotOk inum de ∧ entryDdotOk inum de) ∧
         p = (s.1 || l.any (fun de => decide (de.name = ".")),
              s.2 || l.any (fun de => decide (de.name = "..")))) := by
  intro l
  induction l with
  | nil =>
    intro inum s p
    simp only [procEntries, List.any_nil, Bool.or_false, List.not_mem_nil]
    constructor
    · intro h
      cases h
      exact ⟨fun de hde => hde.elim, rfl⟩
    · rintro ⟨-, hp⟩
      rw [hp]
  | cons de l ih =>
    intro inum s p
    by_cases hdot : de.name = "."
    · rw [procEntries, if_pos hdot]
      by_cases hinum : de.inum ≠ inum
      · rw [if_pos hinum]
        constructor
        · intro h; cases h
        · rintro ⟨hall, -⟩
          exact absurd ((hall de (List.mem_cons_self _ _)).1 hdot) hinum
      · rw [if_neg hinum]
        rw [ih, List.forall_mem_cons]
        have hddot : de.name ≠ ".." := by rw [hdot]; decide
        have hhead : entryDotOk inum de ∧ entryDdotOk inum de :=
          ⟨fun _ => not_not.mp hinum, fun h => absurd h hddot⟩
        have hcomp : (((true, s.2) : Bool × Bool).1 || l.any (fun de => decide (de.name = ".")),
              ((true, s.2) : Bool × Bool).2 || l.any (fun de => decide (de.name = ".."))) =
            (s.1 || (de :: l).any (fun de => decide (de.name = ".")),
             s.2 || (de :: l).any (fun de => decide (de.name = ".."))) := by
          simp [hdot, hddot]
        rw [hcomp]
        constructor <;> rintro ⟨h1, h2⟩
        · exact ⟨⟨hhead, h1⟩, h2⟩
        · exact ⟨h1.2, h2⟩
    · by_cases hddot : de.name = ".."
      · rw [procEntries, if_neg hdot, if_pos hddot]
        by_cases hcond : (inum ≠ 1 ∧ de.inum = inum) ∨ (inum = 1 ∧ de.inum ≠ inum)
        · rw [if_pos hcond]
          constructor
          · intro h; cases h
          · rintro ⟨hall, -⟩
            have hd := (hall de (List.mem_cons_self _ _)).2 hddot
            rcases hcond with ⟨hne, heq⟩ | ⟨heq, hne⟩
            · exact absurd heq (hd.2 hne)
            · exact absurd (hd.1 heq) (by rwa [heq] at hne)
        · rw [if_neg hcond]
          rw [ih, List.forall_mem_cons]
          push_neg at hcond
          have hhead : entryDotOk inum de ∧ entryDdotOk inum de :=
            ⟨fun h => absurd h hdot,
             fun _ => ⟨fun h1 => by rw [hcond.2 h1, h1], hcond.1⟩⟩
          have hcomp : (((s.1, true) : Bool × Bool).1 || l.any (fun de => decide (de.name = ".")),
                ((s.1, true) : Bool × Bool).2 || l.any (fun de => decide (de.name = ".."))) =
              (s.1 || (de :: l).any (fun de => decide (de.name = ".")),
               s.2 || (de :: l).any (fun de => decide (de.name = ".."))) := by
            simp [hdot, hddot]
          rw [hcomp]
          constructor <;> rintro ⟨h1, h2⟩
          · exact ⟨⟨hhead, h1⟩, h2⟩
          · exact ⟨h1.2, h2⟩
      · rw [procEntries, if_neg hdot, if_neg hddot, ih, List.forall_mem_cons]
        have hhead : entryDotOk inum de ∧ entryDdotOk inum de :=
          ⟨fun h => absurd h hdot, fun h => absurd h hddot⟩
        have hcomp : (s.1 || l.any (fun de => decide (de.name = ".")),
              s.2 || l.any (fun de => decide (de.name = ".."))) =
            (s.1 || (de :: l).any (fun de => decide (de.name = ".")),
             s.2 || (de :: l).any (fun de => decide (de.name = ".."))) := by
          simp [hdot, hddot]
        rw [hcomp]
        constructor <;> rintro ⟨h1, h2⟩
        · exact ⟨⟨hhead, h1⟩, h2⟩
        · exact ⟨h1.2, h2⟩

/-- Any error of the entry scan is one of the two directory error kinds. -/
theorem procEntries_kind :
    ∀ (l : List Dirent) (inum : Nat) (s : Bool × Bool) (e : Err),
      procEntries inum s l = .error e →
      e = .MalformedDirectory ∨ e = .MissingRoot := by
  intro l
  induction l with
  | nil =>
    intro inum s e h
    cases h
  | cons de l ih =>
    intro inum s e h
    rw [procEntries] at h
    split_ifs at h with h1 h2 h3 h4
    · cases h
      exact Or.inl rfl
    · exact ih inum _ e h
    · cases h
      exact Or.inr rfl
    · exact ih inum _ e h
    · exact ih inum _ e h

/-- Splitting a boolean conjunction that evaluates to true. -/
theorem band_true {a b : Bool} (h : (a && b) = true) : a = true ∧ b = true := by
  cases a <;> cases b <;> simp_all

/-- Once the break flag is set, dirLoop ignores the remaining blocks. -/
theorem dirLoop_broke (img : Img) (inum : Nat) :
    ∀ (l : List Nat) (s : Bool × Bool × Bool), s.2.2 = true →
      dirLoop img inum s l = .ok s := by
  intro l
  induction l with
  | nil => intro s _; rfl
  | cons a l ih =>
    intro s hs
    rw [dirLoop, if_pos hs]
    exact ih s hs

/-- Zero addresses do not affect dirLoop. -/
theorem dirLoop_filter (img : Img) (inum : Nat) :
    ∀ (l : List Nat) (s : Bool × Bool × Bool),
      dirLoop img inum s l = dirLoop img inum s (l.filter (fun a => decide (a ≠ 0))) := by
  intro l
  induction l with
  | nil => intro s; rfl
  | cons a l ih =>
    intro s
    by_cases ha : a = 0
    · subst ha
      rw [List.filter_cons, if_neg (by decide)]
      by_cases hs : s.2.2 = true
      · rw [dirLoop, if_pos hs, ih]
      · rw [dirLoop, if_neg hs, if_pos rfl, ih]
    · rw [List.filter_cons, if_pos (by simp [ha])]
      by_cases hs : s.2.2 = true
      · rw [dirLoop, if_pos hs, dirLoop, if_pos hs, ← ih]
      · rw [dirLoop, if_neg hs, if_neg ha, dirLoop, if_neg hs, if_neg ha]
        cases process_entries img a inum (s.1, s.2.1) with
        | error e => rfl
        | ok q => exact ih _

/-- Any dirLoop error is one of the two directory error kinds. -/
theorem dirLoop_kind (img : Img) (inum : Nat) :
    ∀ (l : List Nat) (s : Bool × Bool × Bool) (e : Err),
      dirLoop img inum s l = .error e →
      e = .MalformedDirectory ∨ e = .MissingRoot := by
  intro l
  induction l with
  | nil => intro s e h; cases h
  | cons a l ih =>
    intro s e h
    rw [dirLoop] at h
    split_ifs at h with h1 h2
    · exact ih s e h
    · exact ih s e h
    · cases hpe : process_entries img a inum (s.1, s.2.1) with
      | error e' =>
        rw [hpe] at h
        cases h
        exact procEntries_kind _ inum _ e hpe
      | ok q =>
        rw [hpe] at h
        exact ih _ e h

/-- The main scan equivalence: starting from flags d, dd (with the break flag
coherent), dirLoop over nonzero blocks accepts with both flags set iff every
examined block is well formed and a "." and a ".." entry are found among the
examined blocks or were already flagged. -/
theorem dirLoop_scan (img : Img) (inum : Nat) :
    ∀ (l : List Nat) (d dd : Bool), (∀ a ∈ l, a ≠ 0) →
      ((∃ p : Bool × Bool × Bool,
          dirLoop img inum (d, dd, d && dd) l = .ok p ∧ (p.1 && p.2.1) = true) ↔
        ((∀ b ∈ scanBlocks img inum d dd l, blockOk img inum b) ∧
         (d || (scanBlocks img inum d dd l).any (hasDot img)) = true ∧
         (dd || (scanBlocks img inum d dd l).any (hasDdot img)) = true)) := by
  intro l
  induction l with
  | nil =>
    intro d dd _
    simp only [scanBlocks, List.any_nil, Bool.or_false, List.not_mem_nil]
    constructor
    · rintro ⟨p, hp, hb⟩
      cases hp
      rcases band_true hb with ⟨h1, h2⟩
      exact ⟨fun b hb => hb.elim, h1, h2⟩
    · rintro ⟨-, h1, h2⟩
      exact ⟨(d, dd, d && dd), rfl, by simp [h1, h2]⟩
  | cons b l ih =>
    intro d dd hnz
    have hb0 : b ≠ 0 := hnz b (List.mem_cons_self _ _)
    have hnzl : ∀ a ∈ l, a ≠ 0 := fun a ha => hnz a (List.mem_cons_of_mem _ ha)
    by_cases hbr : (d && dd) = true
    · have hl := dirLoop_broke img inum (b :: l) (d, dd, d && dd) hbr
      rw [hl, scanBlocks, if_pos hbr]
      rcases band_true hbr with ⟨h1, h2⟩
      refine iff_of_true ⟨(d, dd, d && dd), rfl, hbr⟩ ?_
      exact ⟨fun x hx => absurd hx (List.not_mem_nil x), by simp [h1], by simp [h2]⟩
    · rw [dirLoop, if_neg hbr, if_neg hb0, scanBlocks, if_neg hbr]
      cases hpe : process_entries img b inum (d, dd) with
      | error e =>
        have hbad : ¬ blockOk img inum b := by
          intro hok
          have hgood := (procEntries_ok_iff (entriesOf img b) inum (d, dd) _).mpr ⟨hok, rfl⟩
          rw [process_entries] at hpe
          rw [hgood] at hpe
          cases hpe
        constructor
        · rintro ⟨p, hp, -⟩
          cases hp
        · rintro ⟨hall, -, -⟩
          exact absurd (hall b (List.mem_cons_self _ _)) hbad
      | ok q =>
        rw [process_entries] at hpe
        obtain ⟨hgood, hq⟩ := (procEntries_ok_iff _ _ _ _).mp hpe
        obtain ⟨q1, q2⟩ := q
        rw [Prod.mk.injEq] at hq
        have hq1 : q1 = (d || hasDot img b) := hq.1
        have hq2 : q2 = (dd || hasDdot img b) := hq.2
        rw [hq1, hq2]
        dsimp only
        rw [ih (d || hasDot img b) (dd || hasDdot img b) hnzl]
        rw [List.forall_mem_cons, List.any_cons, List.any_cons,
          ← Bool.or_assoc, ← Bool.or_assoc]
        constructor
        · rintro ⟨h1, h2, h3⟩
          exact ⟨⟨hgood, h1⟩, h2, h3⟩
        · rintro ⟨⟨-, h1⟩, h2, h3⟩
          exact ⟨h1, h2, h3⟩

/-- Claim C1 (amended): validate_dir accepts a directory inode iff, over the
blocks it examines (the nonzero direct blocks in slot order, stopping once
both flags are set at the end of a block), every "." entry resolves to the
inode number itself, every ".." entry respects the root rule, and at least
one "." and one ".." entry are seen; any rejection carries one of the two
directory error kinds. -/
theorem c1_validate_dir :
    ∀ (img : Img) (ino : Dinode) (inum : Nat),
      (validate_dir img ino inum = .ok () ↔
        ((∀ b ∈ scanBlocks img inum false false
            ((slotAddrs ino).filter (fun a => decide (a ≠ 0))), blockOk img inum b) ∧
         (scanBlocks img inum false false
            ((slotAddrs ino).filter (fun a => decide (a ≠ 0)))).any (hasDot img) = true ∧
         (scanBlocks img inum false false
            ((slotAddrs ino).filter (fun a => decide (a ≠ 0)))).any (hasDdot img) = true))
      ∧ (∀ e, validate_dir img ino inum = .error e →
          e = .MalformedDirectory ∨ e = .MissingRoot) := by
  intro img ino inum
  have hnz : ∀ a ∈ (slotAddrs ino).filter (fun a => decide (a ≠ 0)), a ≠ 0 := by
    intro a ha
    exact of_decide_eq_true (List.mem_filter.mp ha).2
  have hscan := dirLoop_scan img inum ((slotAddrs ino).filter (fun a => decide (a ≠ 0)))
    false false hnz
  simp only [Bool.false_or, Bool.false_and] at hscan
  unfold validate_dir
  rw [dirLoop_filter]
  cases hdl : dirLoop img inum (false, false, false) ((slotAddrs ino).filter
      (fun a => decide (a ≠ 0))) with
  | error e =>
    rw [hdl] at hscan
    refine ⟨?_, ?_⟩
    · constructor
      · intro h; cases h
      · intro hr
        rcases hscan.mpr hr with ⟨p, hp, -⟩
        cases hp
    · intro e' he'
      cases he'
      exact dirLoop_kind img inum _ _ _ hdl
  | ok p =>
    rw [hdl] at hscan
    dsimp only
    refine ⟨?_, ?_⟩
    · by_cases hp : (p.1 && p.2.1) = true
      · rw [if_pos hp]
        exact iff_of_true rfl (hscan.mp ⟨p, rfl, hp⟩)
      · rw [if_neg hp]
        constructor
        · intro h; cases h
        · intro hr
          rcases hscan.mpr hr with ⟨p', hp', hb'⟩
          cases hp'
          exact absurd hb' hp
    · intro e he
      by_cases hp : (p.1 && p.2.1) = true
      · rw [if_pos hp] at he
        cases he
      · rw [if_neg hp] at he
        cases he
        exact Or.inl rfl

theorem c1_witness :
    validate_dir rootOnlyImg (rootOnlyImg.inodeAt 1) 1 = .ok () :=
  (c1_validate_dir rootOnlyImg (rootOnlyImg.inodeAt 1) 1).1.mpr
    ⟨by decide, by decide, by decide⟩

/-- Claim C1, counterexample: on c1img the root block holds two "." entries
both resolving to inode 1; validate_dir accepts, while the claim (exactly one
"." entry resolving to the inode number) rejects. -/
theorem c1_counterexample :
    validate_dir c1img (c1img.inodeAt 1) 1 = .ok () ∧
    ¬ spec_dir_accepts c1img (c1img.inodeAt 1) 1 := by
  constructor
  · decide
  · decide

/-- When every element check can only fail with one kind, so does allE. -/
theorem allE_kind (f : α → Except Err Unit) (l : List α) (e0 : Err)
    (hk : ∀ a ∈ l, f a = .ok () ∨ f a = .error e0) :
    ∀ e, allE f l = .error e → e = e0 := by
  intro e h
  rcases allE_error_mem f l e h with ⟨a, ha, hf⟩
  rcases hk a ha with h' | h' <;> rw [h'] at hf
  · cases hf
  · cases hf
    rfl

/-- When every step can only fail with one kind, so does foldX. -/
theorem foldX_kind (f : σ → α → Except Err σ) (e0 : Err)
    (hk : ∀ t a e, f t a = .error e → e = e0) :
    ∀ (l : List α) (s : σ) (e : Err), foldX f s l = .error e → e = e0 := by
  intro l s e h
  rcases foldX_error_mem f s l e h with ⟨a, -, t, hf⟩
  exact hk t a e hf

/-- validate_type only fails with BadInodeType. -/
theorem validate_type_kind (ino : Dinode) (e : Err) :
    validate_type ino = .error e → e = .BadInodeType := by
  unfold validate_type
  split_ifs
  · intro h; cases h
  · intro h; cases h; rfl

/-- check_direct only fails with BadDirectAddress. -/
theorem check_direct_kind (img : Img) (ino : Dinode) (e : Err) :
    check_direct img ino = .error e → e = .BadDirectAddress := by
  intro h
  exact allE_kind _ _ _ (fun i _ => slot_kinds img (ino.addrs.getD i 0) _) e h

/-- check_indirect only fails with BadIndirectAddress. -/
theorem check_indirect_kind (img : Img) (ino : Dinode) (e : Err) :
    check_indirect img ino = .error e → e = .BadIndirectAddress := by
  unfold check_indirect
  dsimp only
  split_ifs with h1 h2
  · intro h; cases h
  · intro h; cases h; rfl
  · intro h
    exact allE_kind _ _ _ (fun j _ => slot_kinds img (img.blockUints (ino.addrs.getD NDIRECT 0) j) _) e h

/-- validate_dir only fails with the two directory kinds. -/
theorem validate_dir_kind (img : Img) (ino : Dinode) (inum : Nat) (e : Err) :
    validate_dir img ino inum = .error e →
    e = .MalformedDirectory ∨ e = .MissingRoot := by
  unfold validate_dir
  cases hdl : dirLoop img inum (false, false, false) (slotAddrs ino) with
  | error e' =>
    intro h
    cases h
    exact dirLoop_kind img inum _ _ _ hdl
  | ok p =>
    dsimp only
    split_ifs
    · intro h; cases h
    · intro h; cases h; exact Or.inl rfl

/-- The bitmap walk over an indirect block only fails with AddressNotInBitmap. -/
theorem chk_indirect_kind (img : Img) (contents : Nat → Nat)
    (chkd : Nat → Bool) (e : Err) :
    chk_indirect img contents chkd = .error e → e = .AddressNotInBitmap := by
  intro h
  refine foldX_kind _ .AddressNotInBitmap ?_ _ _ _ h
  intro t j e' hf
  dsimp only at hf
  split_ifs at hf
  all_goals cases hf
  all_goals rfl

/-- chk_bmp_addr only fails with AddressNotInBitmap. -/
theorem chk_bmp_addr_kind (img : Img) (ino : Dinode) (e : Err) :
    chk_bmp_addr img ino = .error e → e = .AddressNotInBitmap := by
  unfold chk_bmp_addr
  cases hf : foldX (fun chkd i =>
      let addr := ino.addrs.getD i 0
      if addr = 0 ∨ chkd addr then .ok chkd
      else if !(marked_in_bmp img addr) then .error .AddressNotInBitmap
      else
        let chkd' := setB chkd addr
        if i = NDIRECT then chk_indirect img (img.blockUints addr) chkd'
        else .ok chkd') (fun _ => false) (List.range (NDIRECT + 1)) with
  | error e' =>
    intro h
    cases h
    refine foldX_kind _ .AddressNotInBitmap ?_ _ _ _ hf
    intro t i e'' hstep
    dsimp only at hstep
    split_ifs at hstep
    all_goals first
      | exact chk_indirect_kind img _ _ _ hstep
      | (cases hstep; rfl)
      | cases hstep
  | ok chkd => intro h; cases h

/-- chk_mark_bmp only fails with AddressNotInBitmap. -/
theorem chk_mark_bmp_kind (img : Img) (addr : Nat) (cl : Nat → Bool) (e : Err) :
    chk_mark_bmp img addr cl = .error e → e = .AddressNotInBitmap := by
  unfold chk_mark_bmp
  split_ifs
  · intro h; cases h; rfl
  · intro h; cases h

/-- The forward phase of bmp_chk only fails with AddressNotInBitmap. -/
theorem bmpForward_kind (img : Img) (e : Err) :
    bmpForward img = .error e → e = .AddressNotInBitmap := by
  intro h
  refine foldX_kind _ .AddressNotInBitmap ?_ _ _ _ h
  intro cl i e' hstep
  dsimp only at hstep
  by_cases htype : (img.inodeAt i).type = 0
  · rw [if_pos htype] at hstep
    cases hstep
  · rw [if_neg htype] at hstep
    have hk1 : ∀ (t : Nat → Bool) (j : Nat) (e : Err),
        (if (img.inodeAt i).addrs.getD j 0 ≠ 0
         then chk_mark_bmp img ((img.inodeAt i).addrs.getD j 0) t
         else .ok t) = .error e → e = .AddressNotInBitmap := by
      intro t j e'' hf
      split_ifs at hf
      all_goals first
        | exact chk_mark_bmp_kind img _ t e'' hf
        | cases hf
    cases hf1 : foldX (fun cl j =>
        let addr := (img.inodeAt i).addrs.getD j 0
        if addr ≠ 0 then chk_mark_bmp img addr cl else .ok cl)
        cl (List.range NDIRECT) with
    | error e1 =>
      rw [hf1] at hstep
      cases hstep
      exact foldX_kind _ .AddressNotInBitmap (fun t j e'' hf => hk1 t j e'' hf) _ _ _ hf1
    | ok cl1 =>
      rw [hf1] at hstep
      dsimp only at hstep
      by_cases hind : (img.inodeAt i).addrs.getD NDIRECT 0 = 0
      · rw [if_pos hind] at hstep
        cases hstep
      · rw [if_neg hind] at hstep
        refine foldX_kind _ .AddressNotInBitmap ?_ _ _ _ hstep
        intro t j e'' hf
        try dsimp only at hf
        split_ifs at hf
        all_goals first
          | exact chk_mark_bmp_kind img _ t e'' hf
          | cases hf

/-- The per-inode sweep never fails with DuplicateBlockUse. -/
theorem inode_chk_ne_dup (img : Img) (i : Nat) (e : Err) :
    inode_chk img i = .error e → e ≠ .DuplicateBlockUse := by
  unfold inode_chk
  dsimp only
  by_cases htype : (img.inodeAt i).type = 0
  · rw [if_pos htype]
    intro h; cases h
  · rw [if_neg htype]
    cases h1 : validate_type (img.inodeAt i) with
    | error e1 =>
      intro h; cases h
      rw [validate_type_kind _ _ h1]
      intro hc; cases hc
    | ok u =>
      cases u
      cases h2 : check_direct img (img.inodeAt i) with
      | error e2 =>
        intro h; cases h
        rw [check_direct_kind _ _ _ h2]
        intro hc; cases hc
      | ok u =>
        cases u
        cases h3 : check_indirect img (img.inodeAt i) with
        | error e3 =>
          intro h; cases h
          rw [check_indirect_kind _ _ _ h3]
          intro hc; cases hc
        | ok u =>
          cases u
          cases h4 : (if i = 1 then
                   (if (img.inodeAt i).type ≠ T_DIR then Except.error Err.MissingRoot
                    else validate_dir img (img.inodeAt i) 1)
                 else if (img.inodeAt i).type = T_DIR then validate_dir img (img.inodeAt i) i
                 else .ok ()) with
          | error e4 =>
            have hkind : e4 = .MalformedDirectory ∨ e4 = .MissingRoot := by
              by_cases hq1 : i = 1
              · rw [if_pos hq1] at h4
                by_cases hq2 : (img.inodeAt i).type ≠ T_DIR
                · rw [if_pos hq2] at h4
                  cases h4
                  exact Or.inr rfl
                · rw [if_neg hq2] at h4
                  exact validate_dir_kind img _ 1 e4 h4
              · rw [if_neg hq1] at h4
                by_cases hq3 : (img.inodeAt i).type = T_DIR
                · rw [if_pos hq3] at h4
                  exact validate_dir_kind img _ i e4 h4
                · rw [if_neg hq3] at h4
                  cases h4
            intro h
            dsimp only at h
            cases h
            rcases hkind with h' | h' <;> rw [h'] <;> intro hc <;> cases hc
          | ok u =>
            cases u
            intro h
            dsimp only at h
            rw [chk_bmp_addr_kind img _ _ h]
            intro hc; cases hc

/-- If the sweep succeeds for a non-free inode, its chk_bmp_addr succeeded. -/
theorem inode_chk_ok_bmp (img : Img) (i : Nat) :
    inode_chk img i = .ok () → (img.inodeAt i).type ≠ 0 →
    chk_bmp_addr img (img.inodeAt i) = .ok () := by
  unfold inode_chk
  dsimp only
  intro h htype
  rw [if_neg htype] at h
  cases h1 : validate_type (img.inodeAt i) with
  | error e1 => rw [h1] at h; cases h
  | ok u =>
    cases u
    rw [h1] at h
    cases h2 : check_direct img (img.inodeAt i) with
    | error e2 => rw [h2] at h; cases h
    | ok u =>
      cases u
      rw [h2] at h
      cases h3 : check_indirect img (img.inodeAt i) with
      | error e3 => rw [h3] at h; cases h
      | ok u =>
        cases u
        rw [h3] at h
        cases h4 : (if i = 1 then
                 (if (img.inodeAt i).type ≠ T_DIR then Except.error Err.MissingRoot
                  else validate_dir img (img.inodeAt i) 1)
               else if (img.inodeAt i).type = T_DIR then validate_dir img (img.inodeAt i) i
               else .ok ()) with
        | error e4 => rw [h4] at h; cases h
        | ok u =>
          cases u
          rw [h4] at h
          exact h

/-- chk_indirect preserves the invariant that every address recorded in chkd
has its bitmap bit set. -/
theorem chk_indirect_inv (img : Img) (contents : Nat → Nat)
    (chkd chkd' : Nat → Bool)
    (h : chk_indirect img contents chkd = .ok chkd')
    (hP : ∀ a, chkd a = true → img.bitmap a = true) :
    ∀ a, chkd' a = true → img.bitmap a = true := by
  refine foldX_inv _ (fun t => ∀ a, t a = true → img.bitmap a = true) ?_ _ chkd chkd' hP h
  intro t j t' hPt hstep
  dsimp only at hstep
  by_cases h1 : contents j = 0 ∨ t (contents j) = true
  · rw [if_pos h1] at hstep
    cases hstep
    exact hPt
  · rw [if_neg h1] at hstep
    cases hm : marked_in_bmp img (contents j) with
    | false =>
      rw [hm] at hstep
      rw [if_pos (show (!false) = true from rfl)] at hstep
      cases hstep
    | true =>
      rw [hm] at hstep
      rw [if_neg (show ¬((!true) = true) by decide)] at hstep
      cases hstep
      intro a ha
      rw [setB] at ha
      by_cases hax : a = contents j
      · rw [hax]
        exact hm
      · rw [if_neg hax] at ha
        exact hPt a ha

/-- If chk_bmp_addr succeeds, every nonzero address slot of the inode
(direct slots and the indirect pointer) has its bitmap bit set. -/
theorem chk_bmp_addr_ok_marked (img : Img) (ino : Dinode)
    (h : chk_bmp_addr img ino = .ok ()) :
    ∀ i, i ≤ NDIRECT → ino.addrs.getD i 0 ≠ 0 →
      img.bitmap (ino.addrs.getD i 0) = true := by
  intro i hi hne
  unfold chk_bmp_addr at h
  cases hf : foldX (fun chkd i =>
      let addr := ino.addrs.getD i 0
      if addr = 0 ∨ chkd addr then .ok chkd
      else if !(marked_in_bmp img addr) then .error .AddressNotInBitmap
      else
        let chkd' := setB chkd addr
        if i = NDIRECT then chk_indirect img (img.blockUints addr) chkd'
        else .ok chkd') (fun _ => false) (List.range (NDIRECT + 1)) with
  | error e => rw [hf] at h; cases h
  | ok chkd2 =>
    have hstep : ∀ (t : Nat → Bool) (j : Nat) (t' : Nat → Bool),
        (∀ a, t a = true → img.bitmap a = true) →
        (let addr := ino.addrs.getD j 0
         if addr = 0 ∨ t addr then .ok t
         else if !(marked_in_bmp img addr) then .error .AddressNotInBitmap
         else
           let chkd' := setB t addr
           if j = NDIRECT then chk_indirect img (img.blockUints addr) chkd'
           else .ok chkd') = .ok t' →
        (∀ a, t' a = true → img.bitmap a = true) := by
      intro t j t' hPt hs
      dsimp only at hs
      by_cases h1 : ino.addrs.getD j 0 = 0 ∨ t (ino.addrs.getD j 0) = true
      · rw [if_pos h1] at hs
        cases hs
        exact hPt
      · rw [if_neg h1] at hs
        cases hm : marked_in_bmp img (ino.addrs.getD j 0) with
        | false =>
          rw [hm] at hs
          rw [if_pos (show (!false) = true from rfl)] at hs
          cases hs
        | true =>
          rw [hm] at hs
          rw [if_neg (show ¬((!true) = true) by decide)] at hs
          have hsetB : ∀ a, setB t (ino.addrs.getD j 0) a = true → img.bitmap a = true := by
            intro a ha
            rw [setB] at ha
            by_cases hax : a = ino.addrs.getD j 0
            · rw [hax]
              exact hm
            · rw [if_neg hax] at ha
              exact hPt a ha
          by_cases hj : j = NDIRECT
          · rw [if_pos hj] at hs
            exact chk_indirect_inv img _ _ _ hs hsetB
          · rw [if_neg hj] at hs
            cases hs
            exact hsetB
    obtain ⟨t, t', hPt, hok⟩ := foldX_ok_mem _
      (fun t => ∀ a, t a = true → img.bitmap a = true) hstep
      (List.range (NDIRECT + 1)) (fun _ => false) chkd2
      (fun a ha => by cases ha) hf i (List.mem_range.mpr (by omega))
    dsimp only at hok
    by_cases h1 : ino.addrs.getD i 0 = 0 ∨ t (ino.addrs.getD i 0) = true
    · rcases h1 with h1 | h1
      · exact absurd h1 hne
      · exact hPt _ h1
    · rw [if_neg h1] at hok
      cases hm : marked_in_bmp img (ino.addrs.getD i 0) with
      | false =>
        rw [hm] at hok
        rw [if_pos (show (!false) = true from rfl)] at hok
        cases hok
      | true => exact hm

/-- If the forward phase of bmp_chk succeeds, every nonzero direct address
and every nonzero address inside a nonzero indirect block of every non-free
inode has its bitmap bit set. -/
theorem bmpForward_ok_marked (img : Img) (cl : Nat → Bool)
    (h : bmpForward img = .ok cl) :
    ∀ i, i < img.ninodes → (img.inodeAt i).type ≠ 0 →
      (∀ j, j < NDIRECT → (img.inodeAt i).addrs.getD j 0 ≠ 0 →
        img.bitmap ((img.inodeAt i).addrs.getD j 0) = true)
      ∧ ((img.inodeAt i).addrs.getD NDIRECT 0 ≠ 0 →
         ∀ j, j < NINDIRECT →
           img.blockUints ((img.inodeAt i).addrs.getD NDIRECT 0) j ≠ 0 →
           img.bitmap (img.blockUints ((img.inodeAt i).addrs.getD NDIRECT 0) j) = true) := by
  intro i hi htype
  have hmark : ∀ (addr : Nat) (t t' : Nat → Bool),
      chk_mark_bmp img addr t = .ok t' → img.bitmap addr = true := by
    intro addr t t' hm
    unfold chk_mark_bmp at hm
    cases hb : marked_in_bmp img addr with
    | false =>
      rw [hb] at hm
      rw [if_pos (show (!false) = true from rfl)] at hm
      cases hm
    | true => exact hb
  obtain ⟨t, t', -, hok⟩ := foldX_ok_mem _ (fun _ => True)
    (fun _ _ _ _ _ => trivial) (List.range img.ninodes) (fun _ => false) cl trivial h
    i (List.mem_range.mpr hi)
  dsimp only at hok
  rw [if_neg htype] at hok
  cases hf1 : foldX (fun cl j =>
      let addr := (img.inodeAt i).addrs.getD j 0
      if addr ≠ 0 then chk_mark_bmp img addr cl else .ok cl)
      t (List.range NDIRECT) with
  | error e => rw [hf1] at hok; cases hok
  | ok cl1 =>
    rw [hf1] at hok
    dsimp only at hok
    constructor
    · intro j hj hne
      obtain ⟨t1, t1', -, hok1⟩ := foldX_ok_mem _ (fun _ => True)
        (fun _ _ _ _ _ => trivial) (List.range NDIRECT) t cl1 trivial hf1
        j (List.mem_range.mpr hj)
      try dsimp only at hok1
      rw [if_pos hne] at hok1
      exact hmark _ _ _ hok1
    · intro hind j hj hne
      rw [if_neg hind] at hok
      obtain ⟨t2, t2', -, hok2⟩ := foldX_ok_mem _ (fun _ => True)
        (fun _ _ _ _ _ => trivial) (List.range NINDIRECT) cl1 t' trivial hok
        j (List.mem_range.mpr hj)
      try dsimp only at hok2
      rw [if_pos hne] at hok2
      exact hmark _ _ _ hok2

/-- Membership in usedAddrs decomposed into the three referencing positions. -/
theorem usedAddrs_cases (img : Img) (a : Nat) (h : a ∈ usedAddrs img) :
    ∃ i, i < img.ninodes ∧ (img.inodeAt i).type ≠ 0 ∧ a ≠ 0 ∧
      ((∃ j, j < NDIRECT ∧ (img.inodeAt i).addrs.getD j 0 = a) ∨
       (img.inodeAt i).addrs.getD NDIRECT 0 = a ∨
       ((img.inodeAt i).addrs.getD NDIRECT 0 ≠ 0 ∧
        ∃ j, j < NINDIRECT ∧ img.blockUints ((img.inodeAt i).addrs.getD NDIRECT 0) j = a)) := by
  unfold usedAddrs at h
  rw [List.mem_flatten] at h
  obtain ⟨li, hli, ha⟩ := h
  rw [List.mem_map] at hli
  obtain ⟨i, hir, heq⟩ := hli
  rw [List.mem_range] at hir
  by_cases htype : (img.inodeAt i).type = 0
  · rw [if_pos htype] at heq
    rw [← heq] at ha
    cases ha
  · rw [if_neg htype] at heq
    rw [← heq] at ha
    unfold inodeUsedAddrs at ha
    rw [List.mem_append] at ha
    rcases ha with ha | ha
    · rw [List.mem_filter] at ha
      obtain ⟨hmem, hne⟩ := ha
      unfold slotAddrs at hmem
      rw [List.mem_map] at hmem
      obtain ⟨j, hjr, hja⟩ := hmem
      rw [List.mem_range] at hjr
      exact ⟨i, hir, htype, of_decide_eq_true hne, Or.inl ⟨j, hjr, hja⟩⟩
    · by_cases hind : (img.inodeAt i).addrs.getD NDIRECT 0 = 0
      · rw [if_pos hind] at ha
        cases ha
      · rw [if_neg hind] at ha
        rw [List.mem_cons] at ha
        rcases ha with rfl | ha
        · exact ⟨i, hir, htype, hind, Or.inr (Or.inl rfl)⟩
        · rw [List.mem_filter] at ha
          obtain ⟨hmem, hne⟩ := ha
          rw [List.mem_map] at hmem
          obtain ⟨j, hjr, hja⟩ := hmem
          rw [List.mem_range] at hjr
          exact ⟨i, hir, htype, of_decide_eq_true hne,
            Or.inr (Or.inr ⟨hind, j, hjr, hja⟩)⟩

/-- Claim C7 (amended): on any image where some non-free inode uses an
address whose bitmap bit is clear, the run terminates with an error raised
during the inode-table sweep or the forward bitmap check, both of which run
before addrs_chk; the verdict is therefore never DuplicateBlockUse. -/
theorem c7_never_duplicate :
    ∀ (img : Img) (fuel : Nat),
      (∃ a ∈ usedAddrs img, img.bitmap a = false) →
      ∃ e, fcheck img fuel = some (.error e) ∧ e ≠ .DuplicateBlockUse := by
  rintro img fuel ⟨a, hmem, hbit⟩
  obtain ⟨i, hi, htype, ha0, hcase⟩ := usedAddrs_cases img a hmem
  cases hs : sweep img with
  | error e =>
    refine ⟨e, ?_, ?_⟩
    · unfold fcheck
      rw [hs]
    · rcases allE_error_mem _ _ _ hs with ⟨k, -, hk⟩
      exact inode_chk_ne_dup img k e hk
  | ok u =>
    cases u
    have hsok := (allE_ok_iff _ _).mp hs
    have hviaForward : ∀ e, bmpForward img = .error e →
        ∃ e', fcheck img fuel = some (.error e') ∧ e' ≠ .DuplicateBlockUse := by
      intro e hb
      have hbc : bmp_chk img = .error e := by
        unfold bmp_chk
        rw [hb]
      refine ⟨e, ?_, ?_⟩
      · unfold fcheck
        rw [hs, hbc]
      · rw [bmpForward_kind img e hb]
        intro hc
        cases hc
    rcases hcase with ⟨j, hj, hja⟩ | hja | ⟨hind, j, hj, hja⟩
    · cases hb : bmpForward img with
      | ok cl =>
        have := (bmpForward_ok_marked img cl hb i hi htype).1 j hj (by rw [hja]; exact ha0)
        rw [hja] at this
        rw [this] at hbit
        cases hbit
      | error e => exact hviaForward e hb
    · have hik := hsok i (List.mem_range.mpr hi)
      have hbmp := inode_chk_ok_bmp img i hik htype
      have := chk_bmp_addr_ok_marked img (img.inodeAt i) hbmp NDIRECT (le_refl _)
        (by rw [hja]; exact ha0)
      rw [hja] at this
      rw [this] at hbit
      cases hbit
    · cases hb : bmpForward img with
      | ok cl =>
        have := (bmpForward_ok_marked img cl hb i hi htype).2 hind j hj (by rw [hja]; exact ha0)
        rw [hja] at this
        rw [this] at hbit
        cases hbit
      | error e => exact hviaForward e hb

theorem c7_witness :
    ∃ e, fcheck c7wimg 2 = some (.error e) ∧ e ≠ .DuplicateBlockUse :=
  c7_never_duplicate c7wimg 2 ⟨20, by decide, by decide⟩

/-- Claim C7, counterexample: c7img contains both a used-but-unmarked
address violation and a duplicate-block violation, yet the run terminates
with BadInodeType (inode 2 has type tag 9, hit earlier in traversal order),
not AddressNotInBitmap. -/
theorem c7_counterexample :
    (∃ a ∈ usedAddrs c7img, c7img.bitmap a = false) ∧
    (∃ a ∈ usedAddrs c7img, 2 ≤ (usedAddrs c7img).count a) ∧
    fcheck c7img 2 = some (.error .BadInodeType) ∧
    Err.BadInodeType ≠ Err.AddressNotInBitmap := by
  refine ⟨⟨20, by decide, by decide⟩, ⟨20, by decide, by decide⟩, ?_, by decide⟩
  decide

/-- A fuel-exhausted traversal yields a chain of directory-entry steps as
long as the fuel. -/
theorem traverse_none_chain (img : Img) :
    ∀ (f : Nat) (i : Nat) (m : Nat → Nat),
      traverse_dirs img f i m = none →
      ∃ c : Nat → Nat, c 0 = i ∧ ∀ k, k < f → dirStep img (c k) (c (k + 1)) := by
  intro f
  induction f with
  | zero =>
    intro i m _
    exact ⟨fun _ => i, rfl, fun k hk => absurd hk (Nat.not_lt_zero k)⟩
  | succ f ih =>
    intro i m h
    rw [traverse_dirs] at h
    by_cases htype : (img.inodeAt i).type = T_DIR
    case neg =>
      rw [if_neg htype] at h
      cases h
    rw [if_pos htype] at h
    have hblock : ∃ addr ∈ perInodeAddrs img (img.inodeAt i), addr ≠ 0 ∧
        ∃ t : Nat → Nat, foldOpt (fun m k =>
            let de := img.blockDirents addr k
            if de.inum = 0 ∨ de.name = "." ∨ de.name = ".." then some m
            else traverse_dirs img f de.inum (inc m de.inum)) t (List.range DPB) = none := by
      split at h
      case h_1 m1 heq =>
        obtain ⟨islot, hislot, t, hft⟩ := foldOpt_none_mem _ _ _ heq
        try dsimp only at hft
        by_cases haddr : (img.inodeAt i).addrs.getD islot 0 = 0
        · rw [if_pos haddr] at hft
          cases hft
        · rw [if_neg haddr] at hft
          refine ⟨(img.inodeAt i).addrs.getD islot 0, ?_, haddr, t, hft⟩
          unfold perInodeAddrs
          apply List.mem_append_left
          unfold slotAddrs
          exact List.mem_map.mpr ⟨islot, hislot, rfl⟩
      case h_2 m1 heq =>
        try dsimp only at h
        by_cases hind : (img.inodeAt i).addrs.getD NDIRECT 0 = 0
        · rw [if_pos hind] at h
          cases h
        · rw [if_neg hind] at h
          obtain ⟨islot, hislot, t, hft⟩ := foldOpt_none_mem _ _ _ h
          try dsimp only at hft
          by_cases haddr : img.blockUints ((img.inodeAt i).addrs.getD NDIRECT 0) islot = 0
          · rw [if_pos haddr] at hft
            cases hft
          · rw [if_neg haddr] at hft
            refine ⟨img.blockUints ((img.inodeAt i).addrs.getD NDIRECT 0) islot,
              ?_, haddr, t, hft⟩
            unfold perInodeAddrs
            apply List.mem_append_right
            rw [if_neg hind]
            exact List.mem_map.mpr ⟨islot, hislot, rfl⟩
    obtain ⟨addr, haddrmem, haddr0, t, hfold⟩ := hblock
    obtain ⟨k, hkmem, t2, het⟩ := foldOpt_none_mem _ _ _ hfold
    try dsimp only at het
    by_cases hguard : (img.blockDirents addr k).inum = 0 ∨
        (img.blockDirents addr k).name = "." ∨ (img.blockDirents addr k).name = ".."
    · rw [if_pos hguard] at het
      cases het
    · rw [if_neg hguard] at het
      push_neg at hguard
      obtain ⟨c, hc0, hcs⟩ :=
        ih (img.blockDirents addr k).inum (inc t2 (img.blockDirents addr k).inum) het
      refine ⟨fun n => match n with | 0 => i | n + 1 => c n, rfl, ?_⟩
      intro n hn
      cases n with
      | zero =>
        show dirStep img i (c 0)
        rw [hc0]
        exact ⟨htype, addr, haddrmem, haddr0,
          k, List.mem_range.mp hkmem, rfl, hguard.1, hguard.2.1, hguard.2.2⟩
      | succ n =>
        show dirStep img (c n) (c (n + 1))
        exact hcs n (by omega)

/-- The target of a directory-entry step is a stored 16-bit inode number. -/
theorem dirStep_target_lt (img : Img)
    (hwf : ∀ b k, (img.blockDirents b k).inum < 65536) :
    ∀ i j, dirStep img i j → j < 65536 := by
  rintro i j ⟨-, addr, -, -, k, -, hj, -⟩
  rw [← hj]
  exact hwf addr k

/-- A chain of steps between two positions gives transitive closure. -/
theorem chain_transGen (r : Nat → Nat → Prop) (c : Nat → Nat) :
    ∀ (q : Nat), (∀ k, k < q → r (c k) (c (k + 1))) →
      ∀ p, p < q → Relation.TransGen r (c p) (c q) := by
  intro q
  induction q with
  | zero => intro _ p hp; exact absurd hp (Nat.not_lt_zero p)
  | succ q ih =>
    intro hsteps p hp
    rcases Nat.lt_succ_iff_lt_or_eq.mp hp with hlt | rfl
    · exact Relation.TransGen.tail
        (ih (fun k hk => hsteps k (by omega)) p hlt) (hsteps q (by omega))
    · exact Relation.TransGen.single (hsteps p (by omega))

/-- A foldOpt whose first step fails is none. -/
theorem foldOpt_head_none (f : σ → α → Option σ) (s : σ) (a : α) (l : List α)
    (h : f s a = none) : foldOpt f s (a :: l) = none := by
  rw [foldOpt, h]

/-- Helper for the concrete cyclic image: the two directory inodes call into
each other forever, so the modelled recursion returns none at every fuel. -/
theorem cycImg_none :
    ∀ f : Nat, (∀ m, traverse_dirs cycImg f 1 m = none)
      ∧ (∀ m, traverse_dirs cycImg f 2 m = none) := by
  intro f
  induction f with
  | zero => exact ⟨fun _ => rfl, fun _ => rfl⟩
  | succ f ih =>
    constructor
    · intro m
      rw [traverse_dirs, if_pos (show (cycImg.inodeAt 1).type = T_DIR from rfl)]
      have hF : foldOpt (fun m i =>
          let addr := (cycImg.inodeAt 1).addrs.getD i 0
          if addr = 0 then some m
          else foldOpt (fun m k =>
              let de := cycImg.blockDirents addr k
              if de.inum = 0 ∨ de.name = "." ∨ de.name = ".." then some m
              else traverse_dirs cycImg f de.inum (inc m de.inum))
            m (List.range DPB)) m (List.range NDIRECT) = none := by
        rw [show List.range NDIRECT = 0 :: [1, 2, 3, 4, 5, 6, 7, 8, 9, 10, 11] from by decide]
        apply foldOpt_head_none
        dsimp only
        rw [if_neg (by decide)]
        rw [show List.range DPB = 0 :: [1, 2, 3, 4, 5, 6, 7, 8, 9, 10, 11, 12, 13, 14, 15,
          16, 17, 18, 19, 20, 21, 22, 23, 24, 25, 26, 27, 28, 29, 30, 31] from by decide]
        apply foldOpt_head_none
        dsimp only
        rw [if_neg (by decide)]
        exact ih.2 (inc m 2)
      rw [hF]
    · intro m
      rw [traverse_dirs, if_pos (show (cycImg.inodeAt 2).type = T_DIR from rfl)]
      have hF : foldOpt (fun m i =>
          let addr := (cycImg.inodeAt 2).addrs.getD i 0
          if addr = 0 then some m
          else foldOpt (fun m k =>
              let de := cycImg.blockDirents addr k
              if de.inum = 0 ∨ de.name = "." ∨ de.name = ".." then some m
              else traverse_dirs cycImg f de.inum (inc m de.inum))
            m (List.range DPB)) m (List.range NDIRECT) = none := by
        rw [show List.range NDIRECT = 0 :: [1, 2, 3, 4, 5, 6, 7, 8, 9, 10, 11] from by decide]
        apply foldOpt_head_none
        dsimp only
        rw [if_neg (by decide)]
        rw [show List.range DPB = 0 :: [1, 2, 3, 4, 5, 6, 7, 8, 9, 10, 11, 12, 13, 14, 15,
          16, 17, 18, 19, 20, 21, 22, 23, 24, 25, 26, 27, 28, 29, 30, 31] from by decide]
        apply foldOpt_head_none
        dsimp only
        rw [if_neg (by decide)]
        exact ih.1 (inc m 1)
      rw [hF]

/-- Claim C9 (confirmed): the traversal carries no visited state; it
terminates (fuel 65536, one unit per recursive call, is never exhausted) on
every image whose directory-entry graph has no inode reachable from itself,
because stored inode numbers are 16-bit so an acyclic chain cannot exceed
65536 steps; and on the cyclic image cycImg the recursion is unbounded: no
amount of fuel makes the traversal from the root return. -/
theorem c9_traversal_termination :
    (∀ (img : Img) (m : Nat → Nat),
      (∀ b k, (img.blockDirents b k).inum < 65536) →
      (∀ i, ¬ Relation.TransGen (dirStep img) i i) →
      traverse_dirs img 65536 1 m ≠ none)
    ∧ (∀ (fuel : Nat) (m : Nat → Nat), traverse_dirs cycImg fuel 1 m = none) := by
  constructor
  · intro img m hwf hacyc hnone
    obtain ⟨c, hc0, hsteps⟩ := traverse_none_chain img 65536 1 m hnone
    have hbound : ∀ k, k ≤ 65536 → c k < 65536 := by
      intro k hk
      cases k with
      | zero =>
        rw [hc0]
        decide
      | succ k =>
        exact dirStep_target_lt img hwf _ _ (hsteps k (by omega))
    have hmaps : ∀ x ∈ Finset.range 65537, c x ∈ Finset.range 65536 := by
      intro x hx
      rw [Finset.mem_range] at hx
      rw [Finset.mem_range]
      exact hbound x (by omega)
    have hcard : (Finset.range 65536).card < (Finset.range 65537).card := by
      rw [Finset.card_range, Finset.card_range]
      omega
    obtain ⟨x, hx, y, hy, hxy, hcxy⟩ :=
      Finset.exists_ne_map_eq_of_card_lt_of_maps_to hcard hmaps
    rw [Finset.mem_range] at hx hy
    rcases Ne.lt_or_lt hxy with hlt | hlt
    · have htg := chain_transGen (dirStep img) c y
        (fun k hk => hsteps k (by omega)) x hlt
      rw [← hcxy] at htg
      exact hacyc (c x) htg
    · have htg := chain_transGen (dirStep img) c x
        (fun k hk => hsteps k (by omega)) y hlt
      rw [hcxy] at htg
      exact hacyc (c y) htg
  · intro fuel m
    exact (cycImg_none fuel).1 m

theorem c9_witness :
    traverse_dirs quietImg 65536 1 (fun _ => 0) ≠ none := by
  refine c9_traversal_termination.1 quietImg (fun _ => 0) (fun b k => (by decide : (0:Nat) < 65536)) ?_
  intro i htg
  have hstep : ∀ x y, ¬ dirStep quietImg x y := by
    rintro x y ⟨h, -⟩
    simp [quietImg, T_DIR] at h
  cases htg with
  | single h => exact hstep _ _ h
  | tail _ h => exact hstep _ _ h
